import Mathlib

/-!
# yproxy: wire codec, resumable reader and connection handler

A shallow embedding of `pkg/message/error_message.go` and `pkg/proc/interaction.go`,
followed by the theorems that settle the properties stated about them.

Conventions of the embedding:
* the bytes of a Go `[]byte` or `string` are a `List Byte`; a Go `string` is an
  arbitrary byte sequence, and `[]byte(s)` / `string(b)` copy the bytes unchanged;
* a slice that is sliced again is a `GoBytes`, which also holds the bytes between its
  length and its capacity;
* a Go call ends in one of three ways, see `GoResult`;
* `uint64` arithmetic is written on `Nat` with an explicit `% 2 ^ 64`.
-/

namespace Yproxy

/-! ## Go runtime notions -/

/-- One octet of a Go byte slice or string. -/
abbrev Byte := Fin 256

/-- Run-time panics that the embedded code can raise. -/
inductive GoPanic
  | sliceBoundsOutOfRange
  | nilDereference
  deriving DecidableEq, Repr

/-- How a Go call ends: it returns a value, it returns a non-nil `error` (a reported
failure), or it panics (which, without a `recover`, takes the process down). -/
inductive GoResult (α : Type)
  | returned (a : α)
  | failed (e : String)
  | panicked (p : GoPanic)
  deriving DecidableEq, Repr

/-- A Go `[]byte`: `elems` are its `len` bytes, `spare` the bytes of its backing array
between its length and its capacity, so `cap` is the length of both together. -/
structure GoBytes where
  elems : List Byte
  spare : List Byte
  deriving DecidableEq, Repr

/-- The backing array of a slice from its first byte up to its capacity. -/
def GoBytes.store (data : GoBytes) : List Byte := data.elems ++ data.spare

/-- The slice expression `data[lo:hi]` on a slice, seen as the bytes it selects: for a
slice operand Go checks `0 <= lo <= hi <= cap(data)`, not `len(data)`, and panics
otherwise; the bytes come from the backing array. The indices are unsigned here. -/
def goSlice (data : GoBytes) (lo hi : Nat) : GoResult (List Byte) :=
  if lo ≤ hi ∧ hi ≤ data.store.length then
    GoResult.returned ((data.store.take hi).drop lo)
  else
    GoResult.panicked GoPanic.sliceBoundsOutOfRange

/-- Conversion `byte(v)`: the low eight bits. -/
def byteOf (v : Nat) : Byte := ⟨v % 256, Nat.mod_lt _ (by decide)⟩

/-- A string literal of the source as the bytes of the Go string. The literals of the
embedded files are ASCII, where a character is one byte, its code. -/
def goString (s : String) : List Byte := s.data.map (fun c => byteOf c.toNat)

/-- The function `binary.BigEndian.PutUint64(b, v)` seen as the eight bytes it stores. -/
def PutUint64 (v : Nat) : List Byte :=
  [byteOf (v >>> 56), byteOf (v >>> 48), byteOf (v >>> 40), byteOf (v >>> 32),
   byteOf (v >>> 24), byteOf (v >>> 16), byteOf (v >>> 8), byteOf v]

/-- The function `binary.BigEndian.Uint64(b)` on an eight byte slice:
`b[7] | b[6]<<8 | ... | b[0]<<56`. -/
def Uint64 (b : List Byte) : Nat :=
  b.foldl (fun acc x => acc * 256 + x.val) 0

/-! ## `pkg/message/error_message.go` -/

/-- The struct `ErrorMessage`. -/
structure ErrorMessage where
  Error : List Byte
  Message : List Byte
  deriving DecidableEq, Repr

/-- The method `ErrorMessage.Encode`. The constant `MessageTypeError` is declared
outside the embedded files, so its byte value is the parameter `tag`. -/
def ErrorMessage.Encode (tag : Byte) (c : ErrorMessage) : List Byte :=
  let encodedMessage : List Byte := [tag, 0, 0, 0]
  let byteError := c.Error
  let encodedMessage := encodedMessage ++ PutUint64 (byteError.length % 2 ^ 64)
  let encodedMessage := encodedMessage ++ byteError
  let byteMessage := c.Message
  let encodedMessage := encodedMessage ++ PutUint64 (byteMessage.length % 2 ^ 64)
  let encodedMessage := encodedMessage ++ byteMessage
  PutUint64 ((encodedMessage.length + 8) % 2 ^ 64) ++ encodedMessage

/-- The method `ErrorMessage.Decode`, returning the receiver it fills in. Every index
expression is `uint64` arithmetic, hence the reductions modulo `2 ^ 64`. -/
def ErrorMessage.Decode (data : GoBytes) : GoResult ErrorMessage :=
  match goSlice data 4 12 with
  | GoResult.returned lenBytes =>
    let errorLen := Uint64 lenBytes
    match goSlice data 12 ((12 + errorLen) % 2 ^ 64) with
    | GoResult.returned errBytes =>
      match goSlice data ((12 + errorLen) % 2 ^ 64) ((12 + errorLen + 8) % 2 ^ 64) with
      | GoResult.returned lenBytes2 =>
        let messageLen := Uint64 lenBytes2
        match goSlice data ((12 + errorLen + 8) % 2 ^ 64)
            ((12 + errorLen + 8 + messageLen) % 2 ^ 64) with
        | GoResult.returned msgBytes =>
          GoResult.returned { Error := errBytes, Message := msgBytes }
        | GoResult.failed e => GoResult.failed e
        | GoResult.panicked p => GoResult.panicked p
      | GoResult.failed e => GoResult.failed e
      | GoResult.panicked p => GoResult.panicked p
    | GoResult.failed e => GoResult.failed e
    | GoResult.panicked p => GoResult.panicked p
  | GoResult.failed e => GoResult.failed e
  | GoResult.panicked p => GoResult.panicked p

/-- The payload that the frame reader hands to `Decode`: the frame without its
eight byte total-length field. -/
def framePayload (frame : List Byte) : List Byte := frame.drop 8

/-- The declared length fields fit within the bytes `data`: these hold the first
length field, the error string it declares, the second length field and the message
string that one declares. Plain arithmetic, no wrap-around. Applied to the `elems` of
a slice it speaks of its length, applied to its `store` of its capacity. -/
def lengthFieldsFit (data : List Byte) : Prop :=
  12 ≤ data.length ∧
  12 + Uint64 ((data.take 12).drop 4) + 8 ≤ data.length ∧
  12 + Uint64 ((data.take 12).drop 4) + 8
      + Uint64 ((data.take (12 + Uint64 ((data.take 12).drop 4) + 8)).drop
          (12 + Uint64 ((data.take 12).drop 4)))
    ≤ data.length

instance lengthFieldsFit_decidable (data : List Byte) : Decidable (lengthFieldsFit data) := by
  unfold lengthFieldsFit
  infer_instance

/-! ## `pkg/proc/interaction.go`: the retry reader -/

/-- A non-nil value of the Go interface `error`; `io.EOF` is the sentinel that `Read`
compares against. A Go `error` result is an `Option GoError`, `none` being `nil`. -/
inductive GoError
  | eof
  | other (text : List Byte)
  deriving DecidableEq, Repr

/-- The method `Error()` of an `error` value. -/
def GoError.Error : GoError → List Byte
  | GoError.eof => goString "EOF"
  | GoError.other text => text

/-- Conversion to `int64` and `int64` addition overflow: two's complement wrap-around. -/
def wrapInt64 (x : Int) : Int := (x + 2 ^ 63) % 2 ^ 64 - 2 ^ 63

/-- The collaborators of a retry reader, with the outside world as explicit state `σ`
and the `io.ReadCloser` streams as values `ρ` owned by the reader.
* `reacquireReaderFn s offsetStart` is the struct field of that name: it returns the
  pair `(io.ReadCloser, error)`, the stream being `none` when it is `nil`;
* `read s r len` is `r.Read(p)` with `len = len(p)`: the count `n`, the bytes stored
  in `p`, and the error;
* `close s r` is `r.Close()`. -/
structure Backend (σ ρ : Type) where
  reacquireReaderFn : σ → Int → σ × Option ρ × Option GoError
  read : σ → ρ → Nat → σ × ρ × Int × List Byte × Option GoError
  close : σ → ρ → σ × Option GoError

/-- The struct `YproxyRetryReader`; the field `reacquireReaderFn` lives in `Backend`. -/
structure YproxyRetryReader (ρ : Type) where
  underlying : Option ρ
  bytesWrite : Int
  retryCnt : Int
  retryLimit : Int
  needReacquire : Bool
  deriving DecidableEq, Repr

/-- The constant `defaultRetryLimit`. -/
def defaultRetryLimit : Int := 100

/-- The constructor `newYRetryReader`: the fields it does not mention keep their zero
value, so `underlying` is `nil` and `retryCnt` is `0`. -/
def newYRetryReader {ρ : Type} : YproxyRetryReader ρ :=
  { underlying := none
    bytesWrite := 0
    retryCnt := 0
    retryLimit := defaultRetryLimit
    needReacquire := true }

/-- Calls that `Read` makes on its collaborators, in order. -/
inductive Ev
  | reacquire (offsetStart : Int) (ok : Bool)
  | read (n : Int) (err : Option GoError)
  | close
  deriving DecidableEq, Repr

/-- How one call of `Read` ends: `ret n err data` is `return n, err` with `data` the
bytes that the call left in `p`. -/
inductive ReadEnd
  | ret (n : Int) (err : Option GoError) (data : List Byte)
  | panicked (p : GoPanic)
  deriving DecidableEq, Repr

/-- The state after a call of `Read` and the calls it made. -/
structure ReadOutcome (σ ρ : Type) where
  fin : ReadEnd
  y : YproxyRetryReader ρ
  s : σ
  trace : List Ev

/-- One execution of the body of the `for` loop of `Read`: it returns, or it reaches
a `continue`. -/
inductive Iter (σ ρ : Type)
  | done (o : ReadOutcome σ ρ)
  | next (y : YproxyRetryReader ρ) (s : σ) (trace : List Ev)

/-- Lines 58 to 77 of `Read`: the read on `y.underlying` and what follows it. -/
def YproxyRetryReader.readUnderlying {σ ρ : Type} (B : Backend σ ρ) (len : Nat)
    (y : YproxyRetryReader ρ) (s : σ) (trace : List Ev) : Iter σ ρ :=
  match y.underlying with
  | none => Iter.done ⟨ReadEnd.panicked GoPanic.nilDereference, y, s, trace⟩
  | some r =>
    match B.read s r len with
    | (s1, r1, n, data, err) =>
      let y1 := { y with underlying := some r1 }
      let trace1 := trace ++ [Ev.read n err]
      if err = some GoError.eof then
        Iter.done ⟨ReadEnd.ret n err data, y1, s1, trace1⟩
      else if err ≠ none ∨ n < 0 then
        match B.close s1 r1 with
        | (s2, _) => Iter.next { y1 with needReacquire := true } s2 (trace1 ++ [Ev.close])
      else
        Iter.done ⟨ReadEnd.ret n err data,
          { y1 with bytesWrite := wrapInt64 (y1.bytesWrite + n) }, s1, trace1⟩

/-- The body of the `for` loop of `Read`, lines 40 to 77. The `time.Sleep(time.Second)`
after a failed reopen only takes time and is left out; the comment above it speaks of
a random sleep, the code sleeps one fixed second. -/
def YproxyRetryReader.readIter {σ ρ : Type} (B : Backend σ ρ) (len : Nat)
    (y : YproxyRetryReader ρ) (s : σ) (trace : List Ev) : Iter σ ρ :=
  if y.needReacquire then
    match B.reacquireReaderFn s y.bytesWrite with
    | (s1, r, err) =>
      if err ≠ none then
        Iter.next y s1 (trace ++ [Ev.reacquire y.bytesWrite false])
      else
        YproxyRetryReader.readUnderlying B len
          { y with underlying := r, needReacquire := false } s1
          (trace ++ [Ev.reacquire y.bytesWrite true])
  else
    YproxyRetryReader.readUnderlying B len y s trace

/-- The error that `Read` returns after its loop. -/
def retriesExhausted : GoError := GoError.other (goString "failed to unpload within retries")

/-- The `for retry := 0; retry < y.retryLimit; retry++` loop of `Read` with `rem`
iterations left, and the `return` after it. The counter `retry` is only logged. -/
def YproxyRetryReader.readLoop {σ ρ : Type} (B : Backend σ ρ) (len : Nat) :
    Nat → YproxyRetryReader ρ → σ → List Ev → ReadOutcome σ ρ
  | 0, y, s, trace => ⟨ReadEnd.ret (-1) (some retriesExhausted) [], y, s, trace⟩
  | rem + 1, y, s, trace =>
    match YproxyRetryReader.readIter B len y s trace with
    | Iter.done o => o
    | Iter.next y1 s1 trace1 => YproxyRetryReader.readLoop B len rem y1 s1 trace1

/-- The method `YproxyRetryReader.Read` on a buffer `p` of length `len`. -/
def YproxyRetryReader.Read {σ ρ : Type} (B : Backend σ ρ) (len : Nat)
    (y : YproxyRetryReader ρ) (s : σ) : ReadOutcome σ ρ :=
  YproxyRetryReader.readLoop B len y.retryLimit.toNat y s []

/-- The method `YproxyRetryReader.Close`: the world after the call and the error it
returns; calling `Close` on a `nil` `underlying` panics. -/
def YproxyRetryReader.Close {σ ρ : Type} (B : Backend σ ρ)
    (y : YproxyRetryReader ρ) (s : σ) : GoResult (σ × Option GoError) :=
  match y.underlying with
  | none => GoResult.panicked GoPanic.nilDereference
  | some r => GoResult.returned (B.close s r)

/-- Number of failed attempts among the calls of a trace: failed reopens, and reads
on the underlying stream that `Read` treats as failed. -/
def failedAttempts : List Ev → Nat
  | [] => 0
  | Ev.reacquire _ ok :: rest => (if ok then 0 else 1) + failedAttempts rest
  | Ev.read n err :: rest =>
    (if err ≠ some GoError.eof ∧ (err ≠ none ∨ n < 0) then 1 else 0) + failedAttempts rest
  | Ev.close :: rest => failedAttempts rest

/-- The offsets handed to `reacquireReaderFn` in a trace. -/
def reacquireOffsets : List Ev → List Int
  | [] => []
  | Ev.reacquire off _ :: rest => off :: reacquireOffsets rest
  | _ :: rest => reacquireOffsets rest

/-! ### Simulated backends -/

/-- A storage that cannot be reached: every reopen fails. Its state counts the
attempts. -/
def unreachableBackend : Backend Nat Unit where
  reacquireReaderFn := fun s _ => (s + 1, none, some (GoError.other (goString "no route to storage")))
  read := fun s r _ => (s, r, 0, [], some (GoError.other (goString "closed")))
  close := fun s _ => (s, none)

/-- Scheduled behaviour of one call on the simulated storage. -/
inductive Step
  /-- The call works; a read hands over at most `k` bytes, and reports `io.EOF`
  together with the last bytes when `eofWithData` is set. -/
  | ok (k : Nat) (eofWithData : Bool)
  /-- The call fails with an error that is not `io.EOF`; a read reports count `n`. -/
  | fail (n : Int)
  /-- A read reports the count `-1` and no error; a reopen works. -/
  | negative
  deriving DecidableEq, Repr

/-- A read of at most `m` bytes at position `pos` of the object `D`. -/
def serve (D : List Byte) (pos m : Nat) (eofWithData : Bool) :
    Nat × Int × List Byte × Option GoError :=
  if D.length ≤ pos then
    (pos, 0, [], some GoError.eof)
  else
    let chunk := (D.drop pos).take m
    (pos + chunk.length, chunk.length, chunk,
      if eofWithData ∧ pos + chunk.length = D.length then some GoError.eof else none)

/-- A storage holding the object `D`: a stream opened at an offset serves `D` from
that offset, and each call (reopen or read) follows the next `Step` of the schedule
that is the state; once the schedule is used up every call works. A stream is its
position in `D`. -/
def servingBackend (D : List Byte) : Backend (List Step) Nat where
  reacquireReaderFn := fun s off =>
    match s with
    | Step.fail _ :: rest => (rest, none, some (GoError.other (goString "cannot open")))
    | _ :: rest => (rest, some off.toNat, none)
    | [] => ([], some off.toNat, none)
  read := fun s pos len =>
    match s with
    | Step.fail n :: rest => (rest, pos, n, [], some (GoError.other (goString "connection reset")))
    | Step.negative :: rest => (rest, pos, -1, [], none)
    | Step.ok k e :: rest => (rest, serve D pos (min k len) e)
    | [] => ([], serve D pos len false)
  close := fun s _ => (s, none)

/-- How a sequence of `Read` calls ended. -/
inductive SessionEnd
  | endOfStream
  | readFailed
  | panicked
  | unfinished
  deriving DecidableEq, Repr

/-- What a caller has seen of a retry reader. `opens` pairs the offset of every call
of `reacquireReaderFn` with the number of bytes delivered to the caller before the
`Read` that made the call. -/
structure Session (σ ρ : Type) where
  delivered : List Byte
  opens : List (Int × Nat)
  failed : Nat
  status : SessionEnd
  y : YproxyRetryReader ρ
  s : σ

/-- The bytes `p[:n]` that a caller takes from a `Read` that returned `n`. -/
def taken (n : Int) (data : List Byte) : List Byte := data.take n.toNat

/-- Successive calls of `Read` with buffers of the lengths `lens`, as a caller such
as `io.Copy` makes them: the bytes of each call are consumed, and the calls stop at
the first one that reports end of stream or an error. -/
def readAll {σ ρ : Type} (B : Backend σ ρ) :
    List Nat → YproxyRetryReader ρ → σ → List Byte → List (Int × Nat) → Nat → Session σ ρ
  | [], y, s, delivered, opens, failed =>
    ⟨delivered, opens, failed, SessionEnd.unfinished, y, s⟩
  | len :: lens, y, s, delivered, opens, failed =>
    match YproxyRetryReader.Read B len y s with
    | ⟨fin, y1, s1, trace⟩ =>
      let opens1 := opens ++ (reacquireOffsets trace).map (fun off => (off, delivered.length))
      let failed1 := failed + failedAttempts trace
      match fin with
      | ReadEnd.panicked _ => ⟨delivered, opens1, failed1, SessionEnd.panicked, y1, s1⟩
      | ReadEnd.ret n err data =>
        if err = some GoError.eof then
          ⟨delivered ++ taken n data, opens1, failed1, SessionEnd.endOfStream, y1, s1⟩
        else if err ≠ none then
          ⟨delivered, opens1, failed1, SessionEnd.readFailed, y1, s1⟩
        else
          readAll B lens y1 s1 (delivered ++ taken n data) opens1 failed1

/-- The reader has delivered the first `b` bytes of `D`: `bytesWrite` is `b`, and a
stream that is in use stands at position `b`. -/
def ReaderAt (D : List Byte) (y : YproxyRetryReader Nat) (b : Nat) : Prop :=
  y.bytesWrite = (b : Int) ∧ b ≤ D.length ∧ (y.needReacquire = false → y.underlying = some b)

/-- What a call of `Read` made at offset `b` of `D` yields: every reopen asked for
offset `b`, the call did not panic, bytes reported with `io.EOF` are the whole rest of
`D`, and bytes reported without error are the next bytes of `D`, the reader standing
after them. -/
def GoodEnd (D : List Byte) (b : Nat) (o : ReadOutcome (List Step) Nat) : Prop :=
  (∀ off ∈ reacquireOffsets o.trace, off = (b : Int)) ∧
  match o.fin with
  | ReadEnd.panicked _ => False
  | ReadEnd.ret n err data =>
    (err = some GoError.eof → taken n data = D.drop b) ∧
    (err = none → D.drop b = taken n data ++ D.drop (b + (taken n data).length) ∧
      ReaderAt D o.y (b + (taken n data).length))

/-- Progress of a call of `Read` made at offset `b` of `D` with at most `m` scheduled
steps left: when it returns bytes without error, the steps left plus the bytes of `D`
not yet delivered have become fewer. -/
def Advances (D : List Byte) (b m : Nat) (o : ReadOutcome (List Step) Nat) : Prop :=
  match o.fin with
  | ReadEnd.panicked _ => True
  | ReadEnd.ret n err data =>
    err = none → o.s.length + (D.length - (b + (taken n data).length)) < m + (D.length - b)

/-- A fetch from the simulated storage: a fresh reader from `newYRetryReader`, read
with buffers of the lengths `lens`. -/
def fetchSession (D : List Byte) (schedule : List Step) (lens : List Nat) :
    Session (List Step) Nat :=
  readAll (servingBackend D) lens newYRetryReader schedule [] [] 0

/-! ### Scenarios -/

/-- An object of `n` bytes whose byte at position `i` is `i mod 256`. -/
def objectBytes (n : Nat) : List Byte := (List.range n).map byteOf

/-- The stream opens, hands over 100 bytes and breaks; it reopens, hands over 150
bytes and breaks; it reopens and works from then on. -/
def flakySchedule : List Step :=
  [Step.ok 0 false, Step.ok 100 false, Step.fail 0,
   Step.ok 0 false, Step.ok 150 false, Step.fail 7,
   Step.ok 0 false]

/-- Three rounds of forty failing calls followed by a reopen that works and a read
of ten bytes. -/
def flappingSchedule : List Step :=
  (List.replicate 40 (Step.fail 0) ++ [Step.ok 0 false, Step.ok 10 false])
    ++ (List.replicate 40 (Step.fail 0) ++ [Step.ok 0 false, Step.ok 10 false])
    ++ (List.replicate 40 (Step.fail 0) ++ [Step.ok 0 false, Step.ok 10 false])

/-! ## `pkg/proc/interaction.go`: the connection handler -/

/-- Modelled from the spec: the type tag of a frame. Package `message` declares the
constants `MessageTypeCat` and so on outside the embedded files; `other` is a tag that
is none of the named ones. -/
inductive MessageType
  | cat
  | put
  | list
  | copyData
  | commandComplete
  | readyForQuery
  | objectMeta
  | error
  | other (tag : Byte)
  deriving DecidableEq, Repr

/-- Modelled from the spec: `object.ObjectInfo`, one entry of a listing. -/
structure ObjectInfo where
  Path : List Byte
  Size : Int
  deriving DecidableEq, Repr

/-- Modelled from the spec: `message.CatMessage`, the fields that `ProcConn` reads. -/
structure CatMessage where
  Name : List Byte
  Decrypt : Bool
  deriving DecidableEq, Repr

/-- Modelled from the spec: `message.PutMessage`. -/
structure PutMessage where
  Name : List Byte
  Encrypt : Bool
  deriving DecidableEq, Repr

/-- Modelled from the spec: `message.ListMessage`. -/
structure ListMessage where
  Prefix : List Byte
  deriving DecidableEq, Repr

/-- Modelled from the spec: `message.CopyDataMessage`, `Sz` being a `uint64`. -/
structure CopyDataMessage where
  Sz : Nat
  Data : List Byte
  deriving DecidableEq, Repr

/-- An argument of `ycl.Conn.Write`: the encoding of a message built by
`NewErrorMessage`, `NewObjectMetaMessage` or `NewReadyForQueryMessage`, or object
bytes copied by `io.Copy`. -/
inductive Frame
  | error (m : ErrorMessage)
  | objectMeta (entries : List ObjectInfo)
  | readyForQuery
  | raw (bytes : List Byte)
  deriving DecidableEq, Repr

/-- What the handler does to the connection, the pipe and the wait group. -/
inductive Event
  /-- The call `ycl.Conn.Write(f)` returned no error. -/
  | sent (f : Frame)
  /-- The call `ycl.Conn.Write(f)` returned an error. -/
  | sendFailed (f : Frame)
  /-- The call `ycl.Conn.Close()`. -/
  | connClose
  /-- The call `w.Close()` on the write end of the pipe. -/
  | pipeClose
  /-- The call `wg.Done()`. -/
  | wgDone
  deriving DecidableEq, Repr

/-- The surroundings of one run of `ProcConn`: the state of the storage, the results
of the calls of `pr.ReadPacket` still to come (after them the connection is at its
end), the results of the calls of `ycl.Conn.Write` still to come (after them every
write works), the events so far, and the panic under way, if any. -/
structure World (σ : Type) where
  storage : σ
  packets : List (Except GoError (MessageType × List Byte))
  writeResults : List (Option GoError)
  log : List Event
  crashed : Option GoPanic

/-- What `s.PutFileToDest(name, r)` does with the read end `r` of the pipe: it reads
the pipe to its end (`reads = none`) or stops reading after `k` writes have reached it
(`reads = some k`), and it returns `err`. -/
structure StoragePut where
  reads : Option Nat
  err : Option GoError
  deriving DecidableEq, Repr

/-- How the feeder goroutine ends: it returns after its deferred `wg.Done()` and
`w.Close()`, it returns before they were registered, or it waits for ever in a write
into the pipe. -/
inductive FeederEnd
  | joined
  | returnedEarly
  | blocked
  deriving DecidableEq, Repr

/-- The collaborators of `ProcConn` that are outside the embedded files.
* `CatFileFromStorage name` gives the calls behind the closure handed to
  `newYRetryReader`: `s.CatFileFromStorage(name, offsetStart)` and the streams;
* `PutFileToDest name` is what `s.PutFileToDest(name, r)` does with the pipe, see
  `StoragePut`;
* `ListPath` is `s.ListPath`, returning `(objectMetas, err)`;
* `Encrypt` and `Decrypt` are the errors of `cr.Encrypt(w)` and `cr.Decrypt(yr)`,
  `plain` is what the decrypting reader makes of a chunk, and setting it up reads
  nothing from `yr`;
* `encWrite k data` is the `k`-th call `ww.Write(data)` on the writer that
  `cr.Encrypt(w)` returned: the writes it makes into the pipe `w`, and its results;
  `encClose` is `ww.Close()` on that writer, likewise;
* the `decode` fields are the `Decode` methods of the request messages. -/
structure Collaborators (σ ρ : Type) where
  CatFileFromStorage : List Byte → Backend σ ρ
  PutFileToDest : List Byte → StoragePut
  ListPath : List Byte → List ObjectInfo × Option GoError
  Encrypt : Option GoError
  Decrypt : Option GoError
  plain : List Byte → List Byte
  encWrite : Nat → List Byte → List (List Byte) × Int × Option GoError
  encClose : List (List Byte) × Option GoError
  decodeCat : List Byte → CatMessage
  decodePut : List Byte → PutMessage
  decodeList : List Byte → ListMessage
  decodeCopyData : List Byte → CopyDataMessage

/-- How `ProcConn` ends: it returns its `error`, it panics, its goroutine waits for
ever, or the copy loop was cut off by the bound on its iterations. -/
inductive Exit
  | returned (err : Option GoError)
  | panicked (p : GoPanic)
  | blocked
  | unfinished
  deriving DecidableEq, Repr

/-- The function `NewErrorMessage`: `err.Error()` on a nil `error` is a nil
dereference. -/
def NewErrorMessage (err : Option GoError) (msg : List Byte) : GoResult ErrorMessage :=
  match err with
  | none => GoResult.panicked GoPanic.nilDereference
  | some e => GoResult.returned { Error := e.Error, Message := msg }

/-- The call `ycl.Conn.Write(f)` and the error it returns. -/
def World.connWrite {σ : Type} (w : World σ) (f : Frame) : World σ × Option GoError :=
  match w.writeResults with
  | [] => ({ w with log := w.log ++ [Event.sent f] }, none)
  | none :: rest => ({ w with writeResults := rest, log := w.log ++ [Event.sent f] }, none)
  | some e :: rest =>
    ({ w with writeResults := rest, log := w.log ++ [Event.sendFailed f] }, some e)

/-- The call `ycl.Conn.Close()`. -/
def World.connClose {σ : Type} (w : World σ) : World σ :=
  { w with log := w.log ++ [Event.connClose] }

/-- Modelled from the spec: `YClient.ReplyError(err, msg)` of package `client`, which
is outside the embedded files. It sends one Error frame, the encoding of
`NewErrorMessage(err, msg)`, on the connection and ignores the result of the write. -/
def ReplyError {σ : Type} (err : Option GoError) (msg : List Byte) (w : World σ) : World σ :=
  match NewErrorMessage err msg with
  | GoResult.returned m => (w.connWrite (Frame.error m)).1
  | GoResult.failed _ => w
  | GoResult.panicked p => { w with crashed := some p }

/-- Modelled from the spec: `ProtoReader.ReadPacket()`, the frame reader of package
`proc`, which is outside the embedded files: the type tag and payload of the next
frame, or an error. -/
def ReadPacket {σ : Type} (w : World σ) :
    World σ × Except GoError (MessageType × List Byte) :=
  match w.packets with
  | [] => (w, Except.error GoError.eof)
  | r :: rest => ({ w with packets := rest }, r)

/-- The deferred calls of `ProcConn` below a `return err`: `ycl.Conn.Close()` runs
whether the function returns or panics. -/
def finish {σ : Type} (w : World σ) (err : Option GoError) : World σ × Exit :=
  (w.connClose,
    match w.crashed with
    | some p => Exit.panicked p
    | none => Exit.returned err)

/-- The end of a loop of `io.Copy`. -/
inductive CopyEnd
  | stopped (err : Option GoError)
  | unfinished
  deriving DecidableEq, Repr

/-- The loop of `io.Copy(ycl.Conn, contentReader)` with its 32 KiB buffer, cut off
after `fuel` reads: each chunk read from the retry reader goes, through `plain`, to
`ycl.Conn.Write`. -/
def ioCopy {σ ρ : Type} (B : Backend σ ρ) (plain : List Byte → List Byte) :
    Nat → YproxyRetryReader ρ → World σ → YproxyRetryReader ρ × World σ × CopyEnd
  | 0, y, w => (y, w, CopyEnd.unfinished)
  | fuel + 1, y, w =>
    match YproxyRetryReader.Read B 32768 y w.storage with
    | ⟨ReadEnd.panicked p, y1, s1, _⟩ =>
      (y1, { w with storage := s1, crashed := some p }, CopyEnd.stopped none)
    | ⟨ReadEnd.ret n er data, y1, s1, _⟩ =>
      let w1 := { w with storage := s1 }
      match (if 0 < n then w1.connWrite (Frame.raw (plain (taken n data))) else (w1, none)) with
      | (w2, some ew) => (y1, w2, CopyEnd.stopped (some ew))
      | (w2, none) =>
        if er = some GoError.eof then (y1, w2, CopyEnd.stopped none)
        else if er ≠ none then (y1, w2, CopyEnd.stopped er)
        else ioCopy B plain fuel y1 w2

/-- The deferred `yr.Close()` of the Cat branch. -/
def deferredClose {σ ρ : Type} (B : Backend σ ρ) (y : YproxyRetryReader ρ) (w : World σ) :
    World σ :=
  match YproxyRetryReader.Close B y w.storage with
  | GoResult.returned (s1, _) => { w with storage := s1 }
  | GoResult.failed _ => w
  | GoResult.panicked p => { w with crashed := some p }

/-- The branch `case message.MessageTypeCat` of `ProcConn`, lines 113 to 146. -/
def procCat {σ ρ : Type} (C : Collaborators σ ρ) (fuel : Nat) (body : List Byte)
    (w : World σ) : World σ × Exit :=
  let msg := C.decodeCat body
  let B := C.CatFileFromStorage msg.Name
  let yr : YproxyRetryReader ρ := newYRetryReader
  match (if msg.Decrypt then C.Decrypt else none) with
  | some err =>
    finish (deferredClose B yr (ReplyError (some err) (goString "failed to decrypt object") w))
      (some err)
  | none =>
    match ioCopy B (if msg.Decrypt then C.plain else id) fuel yr w with
    | (_, w1, CopyEnd.unfinished) => (w1, Exit.unfinished)
    | (y1, w1, CopyEnd.stopped (some err)) =>
      finish (deferredClose B y1 (ReplyError (some err) (goString "copy failed to compelete") w1))
        none
    | (y1, w1, CopyEnd.stopped none) => finish (deferredClose B y1 w1) none

/-- Writes of `chunks` into the pipe after `p` earlier ones, by `w.Write`: a write
into an `io.Pipe` returns once the reader has taken it, so it waits for ever when the
storage has stopped reading. The result is the number of writes made, or `none` when
one of them waits for ever. -/
def pipeWrite (reads : Option Nat) : List (List Byte) → Nat → Option Nat
  | [], p => some p
  | _ :: rest, p =>
    match reads with
    | none => pipeWrite reads rest (p + 1)
    | some k => if p < k then pipeWrite reads rest (p + 1) else none

/-- The `k`-th call `ww.Write(data)` of the feeder: `ww` is the pipe writer `w`, or the
writer that `cr.Encrypt(w)` returned. The result is `none` when the call waits for
ever, else the number of writes into the pipe so far and the results `n, err`. -/
def wwWrite {σ ρ : Type} (C : Collaborators σ ρ) (encrypt : Bool) (reads : Option Nat)
    (k p : Nat) (data : List Byte) : Option (Nat × Int × Option GoError) :=
  if encrypt then
    match C.encWrite k data with
    | (chunks, n, err) => (pipeWrite reads chunks p).map (fun p1 => (p1, n, err))
  else
    (pipeWrite reads [data] p).map (fun p1 => (p1, (data.length : Int), none))

/-- The call `ww.Close()` of the feeder: on the pipe writer it closes the pipe and
returns nil; on the encrypting writer it may first write into the pipe. The result is
`none` when the call waits for ever. -/
def wwClose {σ ρ : Type} (C : Collaborators σ ρ) (encrypt : Bool) (reads : Option Nat)
    (p : Nat) (w : World σ) : Option (World σ × Option GoError) :=
  if encrypt then
    match C.encClose with
    | (chunks, err) => (pipeWrite reads chunks p).map (fun _ => (w, err))
  else
    some ({ w with log := w.log ++ [Event.pipeClose] }, none)

/-- The `for` loop of the feeder goroutine, lines 177 to 212, on the results of
`pr.ReadPacket` still to come; `k` counts the calls of `ww.Write`, `p` the writes into
the pipe. The result tells whether the loop returned (`true`) or waits for ever. -/
def feederLoop {σ ρ : Type} (C : Collaborators σ ρ) (encrypt : Bool) (reads : Option Nat) :
    List (Except GoError (MessageType × List Byte)) → Nat → Nat → World σ → World σ × Bool
  | [], _, _, w =>
    (ReplyError (some GoError.eof) (goString "failed to read chunk of data") w, true)
  | Except.error err :: rest, _, _, w =>
    (ReplyError (some err) (goString "failed to read chunk of data") { w with packets := rest },
      true)
  | Except.ok (tp, body) :: rest, k, p, w =>
    let w1 := { w with packets := rest }
    match tp with
    | MessageType.copyData =>
      let msg := C.decodeCopyData body
      match wwWrite C encrypt reads k p msg.Data with
      | none => (w1, false)
      | some (_, _, some err) =>
        (ReplyError (some err) (goString "failed to write copy data") w1, true)
      | some (p1, n, none) =>
        if n ≠ wrapInt64 msg.Sz then
          (ReplyError (some (GoError.other (goString "unfull write")))
            (goString "failed to compelete request") w1, true)
        else
          feederLoop C encrypt reads rest (k + 1) p1 w1
    | MessageType.commandComplete =>
      match wwClose C encrypt reads p w1 with
      | none => (w1, false)
      | some (w2, some err) =>
        (ReplyError (some err) (goString "failed to close connection") w2, true)
      | some (w2, none) => (w2, true)
    | _ => feederLoop C encrypt reads rest k p w1

/-- The feeder goroutine of the Put branch, lines 160 to 213, against a storage that
reads the pipe as `reads` says. The deferred calls run last registered first:
`wg.Done()`, then `w.Close()`. -/
def feeder {σ ρ : Type} (C : Collaborators σ ρ) (msg : PutMessage) (reads : Option Nat)
    (w : World σ) : World σ × FeederEnd :=
  match (if msg.Encrypt then C.Encrypt else none) with
  | some err =>
    ((ReplyError (some err) (goString "failed to encrypt") w).connClose,
      FeederEnd.returnedEarly)
  | none =>
    match feederLoop C msg.Encrypt reads w.packets 0 0 w with
    | (w1, false) => (w1, FeederEnd.blocked)
    | (w1, true) =>
      ({ w1 with log := w1.log ++ [Event.wgDone, Event.pipeClose] }, FeederEnd.joined)

/-- The branch `case message.MessageTypePut` of `ProcConn`, lines 148 to 231. The
feeder and `s.PutFileToDest` run side by side, coupled by the pipe; the events of the
feeder are put first. `wg.Wait()` returns once the feeder has called `wg.Done()`, and
by then the pipe is closed or about to be, so that `s.PutFileToDest` returns as well.
When the feeder returned early, or waits in a write that the storage no longer reads,
`wg.Done()` is never called and the handler waits for ever. -/
def procPut {σ ρ : Type} (C : Collaborators σ ρ) (body : List Byte) (w : World σ) :
    World σ × Exit :=
  let msg := C.decodePut body
  let put := C.PutFileToDest msg.Name
  match feeder C msg put.reads w with
  | (w1, FeederEnd.joined) =>
    match put.err with
    | some err => finish (ReplyError (some err) (goString "failed to upload") w1) none
    | none =>
      match w1.connWrite Frame.readyForQuery with
      | (w2, some err) => finish (ReplyError (some err) (goString "failed to upload") w2) none
      | (w2, none) => finish w2 none
  | (w1, _) => (w1, Exit.blocked)

/-- The constant `chunkSize` of the List branch. -/
def chunkSize : Nat := 1000

/-- The loop `for i := 0; i < len(objectMetas); i += chunkSize` of the List branch,
from index `i` on; it runs at most `bound` times, and `len(objectMetas)` times are
enough. The index `i` stays below `len(objectMetas) + chunkSize`, within the range
of `int` for any slice. The result tells whether the loop ended without a `return`. -/
def listLoop {σ : Type} (objectMetas : List ObjectInfo) :
    Nat → Nat → World σ → World σ × Bool
  | 0, _, w => (w, true)
  | bound + 1, i, w =>
    if i < objectMetas.length then
      match w.connWrite (Frame.objectMeta
          ((objectMetas.take (min (i + chunkSize) objectMetas.length)).drop i)) with
      | (w1, some err) => (ReplyError (some err) (goString "failed to upload") w1, false)
      | (w1, none) => listLoop objectMetas bound (i + chunkSize) w1
    else
      (w, true)

/-- The branch `case message.MessageTypeList` of `ProcConn`, lines 233 to 262. -/
def procList {σ ρ : Type} (C : Collaborators σ ρ) (body : List Byte) (w : World σ) :
    World σ × Exit :=
  let msg := C.decodeList body
  match C.ListPath msg.Prefix with
  | (_, some err) =>
    finish (ReplyError
      (some (GoError.other (goString "could not list objects: " ++ err.Error)))
      (goString "failed to compelete request") w) none
  | (objectMetas, none) =>
    match listLoop objectMetas objectMetas.length 0 w with
    | (w1, false) => finish w1 none
    | (w1, true) =>
      match w1.connWrite Frame.readyForQuery with
      | (w2, some err) => finish (ReplyError (some err) (goString "failed to upload") w2) none
      | (w2, none) => finish w2 none

/-- The function `ProcConn`; `fuel` bounds the reads of the copy loop of the Cat
branch. -/
def ProcConn {σ ρ : Type} (C : Collaborators σ ρ) (fuel : Nat) (w : World σ) :
    World σ × Exit :=
  match ReadPacket w with
  | (w1, Except.error err) =>
    finish (ReplyError (some err) (goString "failed to read request packet") w1) (some err)
  | (w1, Except.ok (tp, body)) =>
    match tp with
    | MessageType.cat => procCat C fuel body w1
    | MessageType.put => procPut C body w1
    | MessageType.list => procList C body w1
    | _ => finish (ReplyError none (goString "wrong request type") w1) none

/-- The frames that reached the client, in order. -/
def framesSent : List Event → List Frame
  | [] => []
  | Event.sent f :: rest => f :: framesSent rest
  | _ :: rest => framesSent rest

/-- A list cut into pieces of `c` elements from its start, the last piece holding
what is left; `bound` pieces at most, and the length of the list is bound enough. -/
def chunked {α : Type} (c : Nat) : Nat → List α → List (List α)
  | 0, _ => []
  | bound + 1, l => if l.length = 0 then [] else l.take c :: chunked c bound (l.drop c)

/-- The pieces of a list put together again, in order. -/
def concatAll {α : Type} : List (List α) → List α
  | [] => []
  | c :: rest => c ++ concatAll rest

/-- Collaborators that never fail: an unreachable storage for Cat, an empty listing,
a storage that reads a Put to its end, an encrypting writer that passes the bytes on. -/
def default_collaborators : Collaborators Nat Unit where
  CatFileFromStorage := fun _ => unreachableBackend
  PutFileToDest := fun _ => { reads := none, err := none }
  ListPath := fun _ => ([], none)
  Encrypt := none
  Decrypt := none
  plain := id
  encWrite := fun _ data => ([data], data.length, none)
  encClose := ([], none)
  decodeCat := fun body => { Name := body, Decrypt := false }
  decodePut := fun body => { Name := body, Encrypt := false }
  decodeList := fun body => { Prefix := body }
  decodeCopyData := fun body => { Sz := body.length, Data := body }

/-- The collaborators `C` with a storage whose `ListPath` returns the objects `objs`
and no error. -/
def withListing {σ ρ : Type} (C : Collaborators σ ρ) (objs : List ObjectInfo) :
    Collaborators σ ρ :=
  { C with ListPath := fun _ => (objs, none) }

/-- A listing of 2500 objects. -/
def listing2500 : List ObjectInfo := List.replicate 2500 { Path := [], Size := 0 }

/-! ## Codec lemmas -/

theorem Uint64_PutUint64 (v : Nat) (hv : v < 2 ^ 64) : Uint64 (PutUint64 v) = v := by
  simp only [Uint64, PutUint64, byteOf, List.foldl, Nat.shiftRight_eq_div_pow]
  omega

theorem PutUint64_length (v : Nat) : (PutUint64 v).length = 8 := rfl

theorem goSlice_middle (data : GoBytes) (A B C : List Byte) (lo hi : Nat)
    (hs : data.store = A ++ (B ++ C)) (hlo : lo = A.length)
    (hhi : hi = A.length + B.length) :
    goSlice data lo hi = GoResult.returned B := by
  subst hlo hhi
  unfold goSlice
  rw [hs, if_pos (by simp)]
  congr 1
  rw [← List.append_assoc, List.take_append_of_le_length (by simp)]
  rw [List.take_of_length_le (by simp), List.drop_left]

theorem Uint64_foldl_lt (b : List Byte) (acc : Nat) :
    b.foldl (fun a x => a * 256 + x.val) acc < (acc + 1) * 256 ^ b.length := by
  induction b generalizing acc with
  | nil => simp
  | cons x xs ih =>
    have hx : x.val < 256 := x.isLt
    have h1 := ih (acc * 256 + x.val)
    have h2 : (acc * 256 + x.val + 1) * 256 ^ xs.length ≤ (acc + 1) * 256 ^ (xs.length + 1) := by
      calc (acc * 256 + x.val + 1) * 256 ^ xs.length
          ≤ ((acc + 1) * 256) * 256 ^ xs.length := Nat.mul_le_mul_right _ (by omega)
        _ = (acc + 1) * 256 ^ (xs.length + 1) := by ring
    simp only [List.foldl_cons, List.length_cons]
    exact Nat.lt_of_lt_of_le h1 h2

theorem Uint64_lt (b : List Byte) (h : b.length ≤ 8) : Uint64 b < 2 ^ 64 := by
  have h1 := Uint64_foldl_lt b 0
  have h2 : 256 ^ b.length ≤ 256 ^ 8 := Nat.pow_le_pow_right (by decide) h
  have h3 : (256 : Nat) ^ 8 = 2 ^ 64 := by norm_num
  unfold Uint64
  omega

/-- Decoding the body laid out as `tag, 0, 0, 0, len(E), E, len(M), M`, whatever lies
in the spare capacity behind it. -/
theorem Decode_layout (tag : Byte) (E M spare : List Byte)
    (hlen : 28 + E.length + M.length < 2 ^ 63) :
    ErrorMessage.Decode
      { elems := [tag, 0, 0, 0] ++ (PutUint64 E.length ++ (E ++ (PutUint64 M.length ++ M))),
        spare := spare }
      = GoResult.returned { Error := E, Message := M } := by
  have hE : E.length < 2 ^ 64 := by omega
  have hM : M.length < 2 ^ 64 := by omega
  have e1 : (12 + E.length) % 2 ^ 64 = 12 + E.length := Nat.mod_eq_of_lt (by omega)
  have e2 : (12 + E.length + 8) % 2 ^ 64 = 12 + E.length + 8 := Nat.mod_eq_of_lt (by omega)
  have e3 : (12 + E.length + 8 + M.length) % 2 ^ 64 = 12 + E.length + 8 + M.length :=
    Nat.mod_eq_of_lt (by omega)
  generalize hd : ({ elems := [tag, 0, 0, 0] ++ (PutUint64 E.length ++ (E ++
      (PutUint64 M.length ++ M))), spare := spare } : GoBytes) = data
  have hstore : data.store = [tag, 0, 0, 0] ++ (PutUint64 E.length ++ (E ++
      (PutUint64 M.length ++ (M ++ spare)))) := by
    rw [← hd]
    simp [GoBytes.store, List.append_assoc]
  have s1 : goSlice data 4 12 = GoResult.returned (PutUint64 E.length) :=
    goSlice_middle data [tag, 0, 0, 0] (PutUint64 E.length)
      (E ++ (PutUint64 M.length ++ (M ++ spare))) 4 12 hstore rfl rfl
  have s2 : goSlice data 12 (12 + E.length) = GoResult.returned E :=
    goSlice_middle data ([tag, 0, 0, 0] ++ PutUint64 E.length) E
      (PutUint64 M.length ++ (M ++ spare)) 12 (12 + E.length)
      (by rw [hstore]; simp [List.append_assoc]) rfl (by simp [PutUint64_length])
  have s3 : goSlice data (12 + E.length) (12 + E.length + 8)
      = GoResult.returned (PutUint64 M.length) :=
    goSlice_middle data ([tag, 0, 0, 0] ++ PutUint64 E.length ++ E) (PutUint64 M.length)
      (M ++ spare) (12 + E.length) (12 + E.length + 8)
      (by rw [hstore]; simp [List.append_assoc])
      (by simp [PutUint64_length]; omega) (by simp [PutUint64_length]; omega)
  have s4 : goSlice data (12 + E.length + 8) (12 + E.length + 8 + M.length)
      = GoResult.returned M :=
    goSlice_middle data ([tag, 0, 0, 0] ++ PutUint64 E.length ++ E ++ PutUint64 M.length) M
      spare (12 + E.length + 8) (12 + E.length + 8 + M.length)
      (by rw [hstore]; simp [List.append_assoc])
      (by simp [PutUint64_length]; omega) (by simp [PutUint64_length]; omega)
  unfold ErrorMessage.Decode
  simp only [s1, Uint64_PutUint64 _ hE, e1, s2, e2, s3, Uint64_PutUint64 _ hM, e3, s4]

/-! ## Claims on the codec -/

/-- C1. Round trip of the Error message codec: for every `ErrorMessage` whose frame is
a Go slice (so its length is below `2 ^ 63`), `Decode` applied to the payload of the
frame built by `Encode`, as a slice with any spare capacity behind it, returns a
message with the same `Error` and `Message`, zero-length strings included. -/
theorem C1_ErrorMessage_roundtrip (tag : Byte) (m : ErrorMessage) (spare : List Byte)
    (hlen : 28 + m.Error.length + m.Message.length < 2 ^ 63) :
    ErrorMessage.Decode
      { elems := framePayload (ErrorMessage.Encode tag m), spare := spare }
      = GoResult.returned m := by
  have hE : m.Error.length % 2 ^ 64 = m.Error.length := Nat.mod_eq_of_lt (by omega)
  have hM : m.Message.length % 2 ^ 64 = m.Message.length := Nat.mod_eq_of_lt (by omega)
  have hpay : framePayload (ErrorMessage.Encode tag m)
      = [tag, 0, 0, 0] ++ (PutUint64 m.Error.length ++ (m.Error ++
          (PutUint64 m.Message.length ++ m.Message))) := by
    simp only [framePayload, ErrorMessage.Encode, hE, hM]
    rw [List.drop_left' (PutUint64_length _)]
    simp [List.append_assoc]
  rw [hpay, Decode_layout tag m.Error m.Message spare hlen]

/-- C1 at a concrete message: empty `Error`, three byte `Message`, no spare capacity. -/
theorem C1_ErrorMessage_roundtrip_witness :
    28 + ([] : List Byte).length + ([1, 2, 3] : List Byte).length < 2 ^ 63 ∧
    ErrorMessage.Decode
      { elems := framePayload (ErrorMessage.Encode 7 { Error := [], Message := [1, 2, 3] }),
        spare := [] }
      = GoResult.returned { Error := [], Message := [1, 2, 3] } :=
  ⟨by decide, C1_ErrorMessage_roundtrip 7 { Error := [], Message := [1, 2, 3] } [] (by decide)⟩

theorem goSlice_of_le (data : GoBytes) (lo hi : Nat) (h1 : lo ≤ hi)
    (h2 : hi ≤ data.store.length) :
    goSlice data lo hi = GoResult.returned ((data.store.take hi).drop lo) := by
  unfold goSlice
  rw [if_pos ⟨h1, h2⟩]

theorem goSlice_out_of_range (data : GoBytes) (lo hi : Nat)
    (h : hi < lo ∨ data.store.length < hi) :
    goSlice data lo hi = GoResult.panicked GoPanic.sliceBoundsOutOfRange := by
  unfold goSlice
  rw [if_neg (by omega)]

/-- When a declared length does not fit within the capacity, a slice expression of
`Decode` is out of range. -/
theorem Decode_beyond_capacity (data : GoBytes) (hcap : data.store.length < 2 ^ 63)
    (h : ¬ lengthFieldsFit data.store) :
    ErrorMessage.Decode data = GoResult.panicked GoPanic.sliceBoundsOutOfRange := by
  unfold lengthFieldsFit at h
  unfold ErrorMessage.Decode
  by_cases h1 : 12 ≤ data.store.length
  · rw [goSlice_of_le data 4 12 (by omega) h1]
    dsimp only
    have he : Uint64 ((data.store.take 12).drop 4) < 2 ^ 64 :=
      Uint64_lt _ (by simp only [List.length_drop, List.length_take]; omega)
    generalize Uint64 ((data.store.take 12).drop 4) = e at h he ⊢
    by_cases h2 : 12 + e + 8 ≤ data.store.length
    · have e1 : (12 + e) % 2 ^ 64 = 12 + e := Nat.mod_eq_of_lt (by omega)
      have e2 : (12 + e + 8) % 2 ^ 64 = 12 + e + 8 := Nat.mod_eq_of_lt (by omega)
      simp only [e1, e2]
      rw [goSlice_of_le data 12 (12 + e) (by omega) (by omega)]
      rw [goSlice_of_le data (12 + e) (12 + e + 8) (by omega) h2]
      dsimp only
      have hm : Uint64 ((data.store.take (12 + e + 8)).drop (12 + e)) < 2 ^ 64 :=
        Uint64_lt _ (by simp only [List.length_drop, List.length_take]; omega)
      generalize Uint64 ((data.store.take (12 + e + 8)).drop (12 + e)) = m at h hm ⊢
      have h3 : data.store.length < 12 + e + 8 + m := by omega
      rw [goSlice_out_of_range data (12 + e + 8) ((12 + e + 8 + m) % 2 ^ 64) (by omega)]
    · by_cases h3 : 12 ≤ (12 + e) % 2 ^ 64 ∧ (12 + e) % 2 ^ 64 ≤ data.store.length
      · rw [goSlice_of_le data 12 _ h3.1 h3.2]
        rw [goSlice_out_of_range data ((12 + e) % 2 ^ 64) ((12 + e + 8) % 2 ^ 64) (by omega)]
      · rw [goSlice_out_of_range data 12 _ (by omega)]
  · rw [goSlice_out_of_range data 4 12 (by omega)]

/-- C6 as stated fails twice. The empty buffer is too short for the length fields,
and `Decode` reports no failure on it: the call panics. A slice of length 12 and
capacity 64 over zero bytes is too short for the second length field, and `Decode`
produces a message from it, reading the field from the spare capacity. -/
theorem C6_Decode_reports_no_failure :
    (¬ lengthFieldsFit ([] : List Byte) ∧
      ErrorMessage.Decode { elems := [], spare := [] }
        = GoResult.panicked GoPanic.sliceBoundsOutOfRange ∧
      ¬ ∃ e, ErrorMessage.Decode { elems := [], spare := [] } = GoResult.failed e) ∧
    (¬ lengthFieldsFit (List.replicate 12 (0 : Byte)) ∧
      ErrorMessage.Decode { elems := List.replicate 12 0, spare := List.replicate 52 0 }
        = GoResult.returned { Error := [], Message := [] }) := by
  refine ⟨⟨by decide, rfl, ?_⟩, by decide, by decide⟩
  rintro ⟨e, he⟩
  exact GoResult.noConfusion (Eq.trans (Eq.symm he) (rfl :
    ErrorMessage.Decode { elems := [], spare := [] }
      = GoResult.panicked GoPanic.sliceBoundsOutOfRange))

/-- C6, amended. For every buffer (a Go slice, so of capacity below `2 ^ 63`) in which
a declared length field does not fit within the capacity of the buffer, or whose
capacity is too small for the length fields, `ErrorMessage.Decode` produces no message,
and it reports no failure value either. That covers declared lengths for which
`12+errorLen(+8+messageLen)` wraps around in 64 bits. -/
theorem C6_Decode_rejects_beyond_capacity (data : GoBytes)
    (hcap : data.store.length < 2 ^ 63) (h : ¬ lengthFieldsFit data.store) :
    (∀ m, ErrorMessage.Decode data ≠ GoResult.returned m) ∧
    (∀ e, ErrorMessage.Decode data ≠ GoResult.failed e) := by
  rw [Decode_beyond_capacity data hcap h]
  exact ⟨fun m hm => GoResult.noConfusion hm, fun e he => GoResult.noConfusion he⟩

/-- C6, amended, at a buffer of length 12 and capacity 16 whose declared error length
`2 ^ 64 - 12` makes `12+errorLen` wrap around to zero. -/
theorem C6_Decode_rejects_beyond_capacity_witness :
    (GoBytes.store { elems := [0, 0, 0, 0, 255, 255, 255, 255, 255, 255, 255, 244],
                     spare := [0, 0, 0, 0] }).length < 2 ^ 63 ∧
    ¬ lengthFieldsFit (GoBytes.store
        { elems := [0, 0, 0, 0, 255, 255, 255, 255, 255, 255, 255, 244],
          spare := [0, 0, 0, 0] }) ∧
    (∀ m, ErrorMessage.Decode
        { elems := [0, 0, 0, 0, 255, 255, 255, 255, 255, 255, 255, 244],
          spare := [0, 0, 0, 0] } ≠ GoResult.returned m) ∧
    (∀ e, ErrorMessage.Decode
        { elems := [0, 0, 0, 0, 255, 255, 255, 255, 255, 255, 255, 244],
          spare := [0, 0, 0, 0] } ≠ GoResult.failed e) :=
  ⟨by decide, by decide,
    C6_Decode_rejects_beyond_capacity
      { elems := [0, 0, 0, 0, 255, 255, 255, 255, 255, 255, 255, 244], spare := [0, 0, 0, 0] }
      (by decide) (by decide)⟩

/-! ## The retry reader -/

theorem failedAttempts_append (a b : List Ev) :
    failedAttempts (a ++ b) = failedAttempts a + failedAttempts b := by
  induction a with
  | nil => simp [failedAttempts]
  | cons e rest ih =>
    cases e <;> simp [failedAttempts, ih] <;> omega

theorem readIter_reacquire_fails {σ ρ : Type} (B : Backend σ ρ) (len : Nat)
    (y : YproxyRetryReader ρ) (s : σ) (trace : List Ev)
    (hneed : y.needReacquire = true)
    (hfail : (B.reacquireReaderFn s y.bytesWrite).2.2 ≠ none) :
    YproxyRetryReader.readIter B len y s trace
      = Iter.next y (B.reacquireReaderFn s y.bytesWrite).1
          (trace ++ [Ev.reacquire y.bytesWrite false]) := by
  rcases hR : B.reacquireReaderFn s y.bytesWrite with ⟨s1, r, err⟩
  rw [hR] at hfail
  simp only [YproxyRetryReader.readIter, hneed, hR, if_true]
  rw [if_pos hfail]

theorem readLoop_all_reopens_fail {σ ρ : Type} (B : Backend σ ρ) (len : Nat)
    (hfail : ∀ s off, (B.reacquireReaderFn s off).2.2 ≠ none)
    (rem : Nat) (y : YproxyRetryReader ρ) (hneed : y.needReacquire = true)
    (s : σ) (trace : List Ev) :
    (YproxyRetryReader.readLoop B len rem y s trace).fin
        = ReadEnd.ret (-1) (some retriesExhausted) [] ∧
    (YproxyRetryReader.readLoop B len rem y s trace).trace
        = trace ++ List.replicate rem (Ev.reacquire y.bytesWrite false) ∧
    (YproxyRetryReader.readLoop B len rem y s trace).y = y := by
  induction rem generalizing s trace with
  | zero => simp [YproxyRetryReader.readLoop]
  | succ k ih =>
    rw [YproxyRetryReader.readLoop, readIter_reacquire_fails B len y s trace hneed (hfail _ _)]
    have h := ih (B.reacquireReaderFn s y.bytesWrite).1 (trace ++ [Ev.reacquire y.bytesWrite false])
    refine ⟨h.1, ?_, h.2.2⟩
    rw [h.2.1, List.append_assoc, List.replicate_succ]
    rfl

/-- C3. Retry budget: a reader with `retryLimit = L >= 0` that has to reopen its
stream (the state in which `newYRetryReader` leaves it, and in which it stays while no
reopen works) and whose `reacquireReaderFn` fails on every attempt returns from `Read`
with `-1` and the retries-exhausted error, having made exactly `L` calls, all of them
calls of `reacquireReaderFn`, and having delivered no byte. -/
theorem C3_retry_budget {σ ρ : Type} (B : Backend σ ρ) (len : Nat)
    (y : YproxyRetryReader ρ) (s : σ) (L : Int) (hL : y.retryLimit = L) (h0 : 0 ≤ L)
    (hneed : y.needReacquire = true)
    (hfail : ∀ s off, (B.reacquireReaderFn s off).2.2 ≠ none) :
    (YproxyRetryReader.Read B len y s).fin = ReadEnd.ret (-1) (some retriesExhausted) [] ∧
    (YproxyRetryReader.Read B len y s).trace
      = List.replicate L.toNat (Ev.reacquire y.bytesWrite false) ∧
    ((YproxyRetryReader.Read B len y s).trace.length : Int) = L := by
  have h := readLoop_all_reopens_fail B len hfail y.retryLimit.toNat y hneed s []
  rw [hL] at h
  unfold YproxyRetryReader.Read
  rw [hL]
  refine ⟨h.1, by simpa using h.2.1, ?_⟩
  rw [h.2.1]
  simp [Int.toNat_of_nonneg h0]

/-- C3 for the reader built by `newYRetryReader` on a storage that cannot be reached:
one hundred attempts. -/
theorem C3_retry_budget_witness :
    (newYRetryReader : YproxyRetryReader Unit).retryLimit = 100 ∧
    (YproxyRetryReader.Read unreachableBackend 4096 newYRetryReader 0).fin
      = ReadEnd.ret (-1) (some retriesExhausted) [] ∧
    (YproxyRetryReader.Read unreachableBackend 4096 newYRetryReader 0).trace
      = List.replicate (100 : Int).toNat (Ev.reacquire (newYRetryReader : YproxyRetryReader Unit).bytesWrite false) ∧
    ((YproxyRetryReader.Read unreachableBackend 4096 newYRetryReader 0).trace.length : Int) = 100 :=
  ⟨rfl, C3_retry_budget unreachableBackend 4096 newYRetryReader 0 100 rfl (by decide) rfl
    (fun _ _ => by simp [unreachableBackend])⟩

theorem readIter_accounting {σ ρ : Type} (B : Backend σ ρ) (len : Nat)
    (y : YproxyRetryReader ρ) (s : σ) (trace : List Ev) :
    match YproxyRetryReader.readIter B len y s trace with
    | Iter.done o =>
      failedAttempts o.trace = failedAttempts trace ∧
      o.fin ≠ ReadEnd.ret (-1) (some retriesExhausted) [] ∧
      o.y.retryCnt = y.retryCnt ∧ o.y.retryLimit = y.retryLimit
    | Iter.next y1 _ trace1 =>
      failedAttempts trace1 = failedAttempts trace + 1 ∧
      y1.retryCnt = y.retryCnt ∧ y1.retryLimit = y.retryLimit := by
  have key : ∀ (y0 : YproxyRetryReader ρ) (s0 : σ) (tr0 : List Ev),
      y0.retryCnt = y.retryCnt → y0.retryLimit = y.retryLimit →
      failedAttempts tr0 = failedAttempts trace →
      match YproxyRetryReader.readUnderlying B len y0 s0 tr0 with
      | Iter.done o =>
        failedAttempts o.trace = failedAttempts trace ∧
        o.fin ≠ ReadEnd.ret (-1) (some retriesExhausted) [] ∧
        o.y.retryCnt = y.retryCnt ∧ o.y.retryLimit = y.retryLimit
      | Iter.next y1 _ trace1 =>
        failedAttempts trace1 = failedAttempts trace + 1 ∧
        y1.retryCnt = y.retryCnt ∧ y1.retryLimit = y.retryLimit := by
    intro y0 s0 tr0 h1 h2 h3
    unfold YproxyRetryReader.readUnderlying
    cases hu : y0.underlying with
    | none => simp [h1, h2, h3]
    | some r =>
      rcases hR : B.read s0 r len with ⟨s1, r1, n, data, err⟩
      simp only [hR]
      by_cases he : err = some GoError.eof
      · rw [if_pos he]
        simp [he, failedAttempts_append, failedAttempts, h1, h2, h3, retriesExhausted]
      · rw [if_neg he]
        by_cases hf : err ≠ none ∨ n < 0
        · rw [if_pos hf]
          simp [failedAttempts_append, failedAttempts, h1, h2, h3, he, hf]
        · rw [if_neg hf]
          have hn : err = none := by
            by_contra hne
            exact hf (Or.inl hne)
          subst hn
          simp [failedAttempts_append, failedAttempts, h1, h2, h3, retriesExhausted]
          omega
  unfold YproxyRetryReader.readIter
  by_cases hneed : y.needReacquire = true
  · rcases hR : B.reacquireReaderFn s y.bytesWrite with ⟨s1, r, err⟩
    simp only [hneed, if_true]
    by_cases he : err ≠ none
    · simp [he, failedAttempts_append, failedAttempts]
    · simp only [he, if_false]
      exact key _ _ _ rfl rfl (by simp [failedAttempts_append, failedAttempts])
  · simp only [hneed]
    exact key _ _ _ rfl rfl rfl

theorem readLoop_accounting {σ ρ : Type} (B : Backend σ ρ) (len : Nat) (rem : Nat)
    (y : YproxyRetryReader ρ) (s : σ) (trace : List Ev) :
    failedAttempts (YproxyRetryReader.readLoop B len rem y s trace).trace
        ≤ failedAttempts trace + rem ∧
    (failedAttempts (YproxyRetryReader.readLoop B len rem y s trace).trace
        = failedAttempts trace + rem ↔
      (YproxyRetryReader.readLoop B len rem y s trace).fin
        = ReadEnd.ret (-1) (some retriesExhausted) []) ∧
    (YproxyRetryReader.readLoop B len rem y s trace).y.retryCnt = y.retryCnt ∧
    (YproxyRetryReader.readLoop B len rem y s trace).y.retryLimit = y.retryLimit := by
  induction rem generalizing y s trace with
  | zero => simp [YproxyRetryReader.readLoop]
  | succ k ih =>
    have hit := readIter_accounting B len y s trace
    rw [YproxyRetryReader.readLoop]
    cases hI : YproxyRetryReader.readIter B len y s trace with
    | done o =>
      rw [hI] at hit
      dsimp only at hit ⊢
      refine ⟨by omega, ⟨fun h => by omega, fun h => absurd h hit.2.1⟩, hit.2.2.1, hit.2.2.2⟩
    | next y1 s1 trace1 =>
      rw [hI] at hit
      dsimp only at hit ⊢
      have h := ih y1 s1 trace1
      rw [hit.1] at h
      refine ⟨by omega, ⟨fun hh => h.2.1.1 (by omega), fun hh => ?_⟩, ?_, ?_⟩
      · have := h.2.1.2 hh
        omega
      · rw [h.2.2.1, hit.2.1]
      · rw [h.2.2.2, hit.2.2]

/-- C4, amended. The retry budget belongs to one call of `Read`: whatever the backend
does, a call retries at most `retryLimit` failed attempts (failed reopens and failed
reads on the underlying stream), it ends with the retries-exhausted error exactly when
it has made `retryLimit` of them, and it changes neither `retryCnt` nor `retryLimit`,
so the next call starts with the whole budget again. -/
theorem C4_budget_is_per_Read {σ ρ : Type} (B : Backend σ ρ) (len : Nat)
    (y : YproxyRetryReader ρ) (s : σ) :
    failedAttempts (YproxyRetryReader.Read B len y s).trace ≤ y.retryLimit.toNat ∧
    (failedAttempts (YproxyRetryReader.Read B len y s).trace = y.retryLimit.toNat ↔
      (YproxyRetryReader.Read B len y s).fin = ReadEnd.ret (-1) (some retriesExhausted) []) ∧
    (YproxyRetryReader.Read B len y s).y.retryCnt = y.retryCnt ∧
    (YproxyRetryReader.Read B len y s).y.retryLimit = y.retryLimit := by
  have h := readLoop_accounting B len y.retryLimit.toNat y s []
  simpa [YproxyRetryReader.Read, failedAttempts] using h

theorem wrapInt64_of_range (x : Int) (h1 : -(2 ^ 63) ≤ x) (h2 : x < 2 ^ 63) :
    wrapInt64 x = x := by
  unfold wrapInt64
  omega

theorem reacquireOffsets_append (a b : List Ev) :
    reacquireOffsets (a ++ b) = reacquireOffsets a ++ reacquireOffsets b := by
  induction a with
  | nil => rfl
  | cons e rest ih => cases e <;> simp [reacquireOffsets, ih]

theorem take_chunk_split (L : List Byte) (m : Nat) :
    L = L.take m ++ L.drop (L.take m).length := by
  by_cases h : m ≤ L.length
  · rw [List.length_take, Nat.min_eq_left h, List.take_append_drop]
  · have h2 : L.length ≤ m := by omega
    rw [List.take_of_length_le h2, List.drop_length, List.append_nil]

theorem serve_spec (D : List Byte) (pos m : Nat) (e : Bool) (hpos : pos ≤ D.length) :
    ∃ (chunk : List Byte) (err : Option GoError),
      serve D pos m e = (pos + chunk.length, (chunk.length : Int), chunk, err) ∧
      pos + chunk.length ≤ D.length ∧
      D.drop pos = chunk ++ D.drop (pos + chunk.length) ∧
      (err = some GoError.eof → chunk = D.drop pos) ∧
      (err = some GoError.eof ∨ err = none) := by
  unfold serve
  by_cases h : D.length ≤ pos
  · refine ⟨[], some GoError.eof, ?_⟩
    have hd : D.drop pos = [] := List.drop_eq_nil_of_le h
    simp [h, hd, hpos]
  · simp only [h, if_false]
    have hsplit := take_chunk_split (D.drop pos) m
    rw [List.drop_drop] at hsplit
    have hlen : ((D.drop pos).take m).length ≤ D.length - pos := by
      rw [List.length_take, List.length_drop]
      exact Nat.min_le_right _ _
    refine ⟨(D.drop pos).take m, _, rfl, by omega, hsplit, ?_, ?_⟩
    · intro he
      by_cases hc : e = true ∧ pos + ((D.drop pos).take m).length = D.length
      · have : D.drop (pos + ((D.drop pos).take m).length) = [] :=
          List.drop_eq_nil_of_le (by omega)
        rw [this, List.append_nil] at hsplit
        exact hsplit.symm
      · rw [if_neg hc] at he
        exact absurd he (by simp)
    · by_cases hc : e = true ∧ pos + ((D.drop pos).take m).length = D.length
      · left; rw [if_pos hc]
      · right; rw [if_neg hc]

theorem taken_natCast (chunk : List Byte) : taken (chunk.length : Int) chunk = chunk := by
  simp [taken]

/-- What `Read` does once a served read has come back. -/
theorem readUnderlying_served (D : List Byte) (hD : D.length < 2 ^ 63) (len : Nat)
    (y : YproxyRetryReader Nat) (s rest : List Step) (trace : List Ev) (b m : Nat) (e : Bool)
    (hu : y.underlying = some b) (hb : y.bytesWrite = (b : Int)) (hle : b ≤ D.length)
    (htr : ∀ off ∈ reacquireOffsets trace, off = (b : Int))
    (hread : (servingBackend D).read s b len = (rest, serve D b m e)) :
    match YproxyRetryReader.readUnderlying (servingBackend D) len y s trace with
    | Iter.done o => GoodEnd D b o
    | Iter.next y1 _ trace1 =>
      ReaderAt D y1 b ∧ ∀ off ∈ reacquireOffsets trace1, off = (b : Int) := by
  obtain ⟨chunk, err, hs, hfit, hsplit, heof, herr⟩ := serve_spec D b m e hle
  rw [hs] at hread
  unfold YproxyRetryReader.readUnderlying
  rw [hu]
  simp only [hread]
  have htr1 : ∀ off ∈ reacquireOffsets (trace ++ [Ev.read (chunk.length : Int) err]),
      off = (b : Int) := by
    intro off hoff
    rw [reacquireOffsets_append] at hoff
    simpa [reacquireOffsets] using htr off (by simpa [reacquireOffsets] using hoff)
  rcases herr with he | he
  · subst he
    simp only [if_true]
    refine ⟨htr1, ?_⟩
    simp only [taken_natCast]
    exact ⟨fun _ => heof rfl, fun h => absurd h (by simp)⟩
  · subst he
    have hn : ¬ ((none : Option GoError) ≠ none ∨ (chunk.length : Int) < 0) := by
      simp
    rw [if_neg (by simp), if_neg hn]
    refine ⟨htr1, ?_⟩
    simp only [taken_natCast]
    refine ⟨fun h => absurd h (by simp), fun _ => ⟨hsplit, ?_, hfit, fun _ => rfl⟩⟩
    simp only [hb]
    rw [wrapInt64_of_range _ (by omega) (by omega)]
    push_cast
    rfl

theorem readUnderlying_serving (D : List Byte) (hD : D.length < 2 ^ 63) (len : Nat)
    (y : YproxyRetryReader Nat) (s : List Step) (trace : List Ev) (b : Nat)
    (hu : y.underlying = some b) (hb : y.bytesWrite = (b : Int)) (hle : b ≤ D.length)
    (htr : ∀ off ∈ reacquireOffsets trace, off = (b : Int)) :
    match YproxyRetryReader.readUnderlying (servingBackend D) len y s trace with
    | Iter.done o => GoodEnd D b o
    | Iter.next y1 _ trace1 =>
      ReaderAt D y1 b ∧ ∀ off ∈ reacquireOffsets trace1, off = (b : Int) := by
  have hfailed : ∀ (n : Int) (err : Option GoError) (rest : List Step),
      err ≠ some GoError.eof → (err ≠ none ∨ n < 0) →
      (servingBackend D).read s b len = (rest, b, n, [], err) →
      match YproxyRetryReader.readUnderlying (servingBackend D) len y s trace with
      | Iter.done o => GoodEnd D b o
      | Iter.next y1 _ trace1 =>
        ReaderAt D y1 b ∧ ∀ off ∈ reacquireOffsets trace1, off = (b : Int) := by
    intro n err rest h1 h2 hread
    unfold YproxyRetryReader.readUnderlying
    rw [hu]
    simp only [hread]
    rw [if_neg h1, if_pos h2]
    refine ⟨⟨hb, hle, fun h => absurd h (by simp)⟩, ?_⟩
    intro off hoff
    rw [reacquireOffsets_append, reacquireOffsets_append] at hoff
    simpa [reacquireOffsets] using htr off (by simpa [reacquireOffsets] using hoff)
  cases s with
  | nil => exact readUnderlying_served D hD len y [] [] trace b len false hu hb hle htr rfl
  | cons st rest =>
    cases st with
    | ok k e =>
      exact readUnderlying_served D hD len y _ rest trace b (min k len) e hu hb hle htr rfl
    | fail n =>
      exact hfailed n (some (GoError.other (goString "connection reset"))) rest (by simp)
        (Or.inl (by simp)) rfl
    | negative =>
      exact hfailed (-1) none rest (by simp) (Or.inr (by decide)) rfl

theorem readIter_serving (D : List Byte) (hD : D.length < 2 ^ 63) (len : Nat)
    (y : YproxyRetryReader Nat) (s : List Step) (trace : List Ev) (b : Nat)
    (hy : ReaderAt D y b) (htr : ∀ off ∈ reacquireOffsets trace, off = (b : Int)) :
    match YproxyRetryReader.readIter (servingBackend D) len y s trace with
    | Iter.done o => GoodEnd D b o
    | Iter.next y1 _ trace1 =>
      ReaderAt D y1 b ∧ ∀ off ∈ reacquireOffsets trace1, off = (b : Int) := by
  obtain ⟨hb, hle, hopen⟩ := hy
  have htr1 : ∀ ok, ∀ off ∈ reacquireOffsets (trace ++ [Ev.reacquire y.bytesWrite ok]),
      off = (b : Int) := by
    intro ok off hoff
    rw [reacquireOffsets_append] at hoff
    simp only [reacquireOffsets, List.mem_append, List.mem_singleton] at hoff
    rcases hoff with h | h
    · exact htr off h
    · rw [h, hb]
  have hopened : ∀ (rest : List Step),
      (servingBackend D).reacquireReaderFn s y.bytesWrite = (rest, some b, none) →
      y.needReacquire = true →
      match YproxyRetryReader.readIter (servingBackend D) len y s trace with
      | Iter.done o => GoodEnd D b o
      | Iter.next y1 _ trace1 =>
        ReaderAt D y1 b ∧ ∀ off ∈ reacquireOffsets trace1, off = (b : Int) := by
    intro rest hre hneed
    unfold YproxyRetryReader.readIter
    rw [if_pos hneed]
    simp only [hre]
    rw [if_neg (by simp)]
    exact readUnderlying_serving D hD len _ rest _ b rfl hb hle (htr1 true)
  have hnat : (y.bytesWrite).toNat = b := by rw [hb]; simp
  by_cases hneed : y.needReacquire = true
  · cases s with
    | nil => exact hopened [] (by simp [servingBackend, hnat]) hneed
    | cons st rest =>
      cases st with
      | ok k e => exact hopened rest (by simp [servingBackend, hnat]) hneed
      | negative => exact hopened rest (by simp [servingBackend, hnat]) hneed
      | fail n =>
        unfold YproxyRetryReader.readIter
        rw [if_pos hneed]
        simp only [servingBackend]
        rw [if_pos (by simp)]
        exact ⟨⟨hb, hle, hopen⟩, htr1 false⟩
  · have hfalse : y.needReacquire = false := by simpa using hneed
    unfold YproxyRetryReader.readIter
    rw [if_neg hneed]
    exact readUnderlying_serving D hD len y s trace b (hopen hfalse) hb hle htr

theorem readLoop_serving (D : List Byte) (hD : D.length < 2 ^ 63) (len : Nat) (rem : Nat)
    (y : YproxyRetryReader Nat) (s : List Step) (trace : List Ev) (b : Nat)
    (hy : ReaderAt D y b) (htr : ∀ off ∈ reacquireOffsets trace, off = (b : Int)) :
    GoodEnd D b (YproxyRetryReader.readLoop (servingBackend D) len rem y s trace) := by
  induction rem generalizing y s trace with
  | zero =>
    refine ⟨htr, ?_⟩
    simp [YproxyRetryReader.readLoop, retriesExhausted]
  | succ k ih =>
    have hit := readIter_serving D hD len y s trace b hy htr
    rw [YproxyRetryReader.readLoop]
    cases hI : YproxyRetryReader.readIter (servingBackend D) len y s trace with
    | done o =>
      rw [hI] at hit
      exact hit
    | next y1 s1 trace1 =>
      rw [hI] at hit
      exact ih y1 s1 trace1 hit.1 hit.2

theorem readAll_serving (D : List Byte) (hD : D.length < 2 ^ 63) (lens : List Nat)
    (y : YproxyRetryReader Nat) (s : List Step) (delivered : List Byte)
    (opens : List (Int × Nat)) (failed : Nat)
    (hdel : delivered ++ D.drop delivered.length = D)
    (hy : ReaderAt D y delivered.length)
    (hopens : ∀ p ∈ opens, p.1 = (p.2 : Int)) :
    ((readAll (servingBackend D) lens y s delivered opens failed).status
        = SessionEnd.endOfStream →
      (readAll (servingBackend D) lens y s delivered opens failed).delivered = D) ∧
    (∀ p ∈ (readAll (servingBackend D) lens y s delivered opens failed).opens,
      p.1 = (p.2 : Int)) ∧
    (readAll (servingBackend D) lens y s delivered opens failed).delivered <+: D ∧
    (readAll (servingBackend D) lens y s delivered opens failed).status
      ≠ SessionEnd.panicked := by
  induction lens generalizing y s delivered opens failed with
  | nil =>
    refine ⟨fun h => ?_, hopens, ⟨_, hdel⟩, ?_⟩
    · simp [readAll] at h
    · simp [readAll]
  | cons len lens ih =>
    have hgood := readLoop_serving D hD len y.retryLimit.toNat y s [] delivered.length hy
      (by simp [reacquireOffsets])
    rw [readAll]
    change GoodEnd D delivered.length (YproxyRetryReader.Read (servingBackend D) len y s)
      at hgood
    rcases hR : YproxyRetryReader.Read (servingBackend D) len y s with ⟨fin, y1, s1, trace⟩
    rw [hR] at hgood
    obtain ⟨hoff, hfin⟩ := hgood
    dsimp only at hoff hfin ⊢
    have hopens1 : ∀ p ∈ opens ++ (reacquireOffsets trace).map
        (fun off => (off, delivered.length)), p.1 = (p.2 : Int) := by
      intro p hp
      rcases List.mem_append.mp hp with h | h
      · exact hopens p h
      · obtain ⟨off, hmem, rfl⟩ := List.mem_map.mp h
        exact hoff off hmem
    cases fin with
    | panicked p => exact absurd hfin id
    | ret n err data =>
      dsimp only at hfin ⊢
      by_cases he : err = some GoError.eof
      · rw [if_pos he]
        have htk := hfin.1 he
        have hfull : delivered ++ taken n data = D := by rw [htk]; exact hdel
        exact ⟨fun _ => hfull, hopens1, ⟨[], by simp [hfull]⟩, by simp⟩
      · rw [if_neg he]
        by_cases hn : err ≠ none
        · rw [if_pos hn]
          exact ⟨fun h => by simp at h, hopens1, ⟨_, hdel⟩, by simp⟩
        · rw [if_neg hn]
          have hnone : err = none := by simpa using hn
          obtain ⟨hsplit, hy1⟩ := hfin.2 hnone
          refine ih y1 s1 (delivered ++ taken n data) _ _ ?_ ?_ hopens1
          · rw [List.length_append, List.append_assoc, ← hsplit, hdel]
          · rw [List.length_append]
            exact hy1

theorem serve_progress (D : List Byte) (pos m : Nat) (e : Bool) (hm : 0 < m) :
    (serve D pos m e).2.2.2 = none →
      pos < pos + (taken (serve D pos m e).2.1 (serve D pos m e).2.2.1).length ∧
      pos + (taken (serve D pos m e).2.1 (serve D pos m e).2.2.1).length ≤ D.length := by
  unfold serve
  by_cases h : D.length ≤ pos
  · rw [if_pos h]
    intro hn
    simp at hn
  · rw [if_neg h]
    intro _
    dsimp only
    rw [taken_natCast, List.length_take, List.length_drop]
    omega

theorem readUnderlying_progress (D : List Byte) (len : Nat) (hlen : 0 < len)
    (y : YproxyRetryReader Nat) (s : List Step) (trace : List Ev) (b m : Nat)
    (hu : y.underlying = some b) (hm : s.length ≤ m) :
    match YproxyRetryReader.readUnderlying (servingBackend D) len y s trace with
    | Iter.done o => Advances D b m o
    | Iter.next _ s1 _ => s1.length ≤ m := by
  unfold YproxyRetryReader.readUnderlying
  rw [hu]
  cases s with
  | nil =>
    have hp := serve_progress D b len false hlen
    rcases hs : serve D b len false with ⟨p1, n, data, err⟩
    rw [hs] at hp
    dsimp only at hp
    simp only [servingBackend, hs]
    by_cases he : err = some GoError.eof
    · rw [if_pos he]
      intro hn
      rw [he] at hn
      simp at hn
    · rw [if_neg he]
      by_cases hf : err ≠ none ∨ n < 0
      · rw [if_pos hf]
        exact hm
      · rw [if_neg hf]
        intro hn
        have := hp hn
        simp only [List.length_nil] at hm ⊢
        omega
  | cons st rest =>
    have hrest : rest.length < m := by
      simp only [List.length_cons] at hm
      omega
    cases st with
    | fail n =>
      simp only [servingBackend]
      rw [if_neg (by simp), if_pos (Or.inl (by simp))]
      exact Nat.le_of_lt hrest
    | negative =>
      simp only [servingBackend]
      rw [if_neg (by simp), if_pos (Or.inr (by decide))]
      exact Nat.le_of_lt hrest
    | ok k e =>
      rcases hs : serve D b (min k len) e with ⟨p1, n, data, err⟩
      simp only [servingBackend, hs]
      by_cases he : err = some GoError.eof
      · rw [if_pos he]
        intro hn
        rw [he] at hn
        simp at hn
      · rw [if_neg he]
        by_cases hf : err ≠ none ∨ n < 0
        · rw [if_pos hf]
          exact Nat.le_of_lt hrest
        · rw [if_neg hf]
          intro _
          dsimp only
          omega

theorem readIter_progress (D : List Byte) (len : Nat) (hlen : 0 < len)
    (y : YproxyRetryReader Nat) (s : List Step) (trace : List Ev) (b m : Nat)
    (hy : ReaderAt D y b) (hm : s.length ≤ m) :
    match YproxyRetryReader.readIter (servingBackend D) len y s trace with
    | Iter.done o => Advances D b m o
    | Iter.next _ s1 _ => s1.length ≤ m := by
  obtain ⟨hb, _, hopen⟩ := hy
  have hnat : (y.bytesWrite).toNat = b := by rw [hb]; simp
  unfold YproxyRetryReader.readIter
  by_cases hneed : y.needReacquire = true
  · rw [if_pos hneed]
    cases s with
    | nil =>
      simp only [servingBackend, hnat]
      rw [if_neg (by simp)]
      exact readUnderlying_progress D len hlen _ [] _ b m rfl hm
    | cons st rest =>
      have hrest : rest.length ≤ m := by
        simp only [List.length_cons] at hm
        omega
      cases st with
      | fail n =>
        simp only [servingBackend]
        rw [if_pos (by simp)]
        exact hrest
      | ok k e =>
        simp only [servingBackend, hnat]
        rw [if_neg (by simp)]
        exact readUnderlying_progress D len hlen _ rest _ b m rfl hrest
      | negative =>
        simp only [servingBackend, hnat]
        rw [if_neg (by simp)]
        exact readUnderlying_progress D len hlen _ rest _ b m rfl hrest
  · have hfalse : y.needReacquire = false := by simpa using hneed
    rw [if_neg hneed]
    exact readUnderlying_progress D len hlen y s trace b m (hopen hfalse) hm

theorem readLoop_progress (D : List Byte) (hD : D.length < 2 ^ 63) (len : Nat)
    (hlen : 0 < len) (rem : Nat) (y : YproxyRetryReader Nat) (s : List Step)
    (trace : List Ev) (b m : Nat) (hy : ReaderAt D y b)
    (htr : ∀ off ∈ reacquireOffsets trace, off = (b : Int)) (hm : s.length ≤ m) :
    Advances D b m (YproxyRetryReader.readLoop (servingBackend D) len rem y s trace) := by
  induction rem generalizing y s trace with
  | zero =>
    unfold Advances
    simp [YproxyRetryReader.readLoop, retriesExhausted]
  | succ k ih =>
    have hit := readIter_serving D hD len y s trace b hy htr
    have hpr := readIter_progress D len hlen y s trace b m hy hm
    rw [YproxyRetryReader.readLoop]
    cases hI : YproxyRetryReader.readIter (servingBackend D) len y s trace with
    | done o =>
      rw [hI] at hpr
      exact hpr
    | next y1 s1 trace1 =>
      rw [hI] at hit hpr
      exact ih y1 s1 trace1 hit.1 hit.2 hpr

theorem readAll_live (D : List Byte) (hD : D.length < 2 ^ 63) (lens : List Nat)
    (hpos : ∀ len ∈ lens, 0 < len)
    (y : YproxyRetryReader Nat) (s : List Step) (delivered : List Byte)
    (opens : List (Int × Nat)) (failed : Nat)
    (hdel : delivered ++ D.drop delivered.length = D)
    (hy : ReaderAt D y delivered.length)
    (hμ : s.length + (D.length - delivered.length) < lens.length) :
    (readAll (servingBackend D) lens y s delivered opens failed).status
      ≠ SessionEnd.unfinished := by
  induction lens generalizing y s delivered opens failed with
  | nil => simp at hμ
  | cons len lens ih =>
    have hgood := readLoop_serving D hD len y.retryLimit.toNat y s [] delivered.length hy
      (by simp [reacquireOffsets])
    have hadv := readLoop_progress D hD len (hpos len (List.mem_cons_self _ _))
      y.retryLimit.toNat y s [] delivered.length s.length hy (by simp [reacquireOffsets])
      (Nat.le_refl _)
    rw [readAll]
    change GoodEnd D delivered.length (YproxyRetryReader.Read (servingBackend D) len y s)
      at hgood
    change Advances D delivered.length s.length
      (YproxyRetryReader.Read (servingBackend D) len y s) at hadv
    rcases hR : YproxyRetryReader.Read (servingBackend D) len y s with ⟨fin, y1, s1, trace⟩
    rw [hR] at hgood hadv
    obtain ⟨_, hfin⟩ := hgood
    unfold Advances at hadv
    dsimp only at hfin hadv ⊢
    cases fin with
    | panicked p => simp
    | ret n err data =>
      dsimp only at hfin hadv ⊢
      by_cases he : err = some GoError.eof
      · rw [if_pos he]; simp
      · rw [if_neg he]
        by_cases hn : err ≠ none
        · rw [if_pos hn]; simp
        · rw [if_neg hn]
          have hnone : err = none := by simpa using hn
          obtain ⟨hsplit, hy1⟩ := hfin.2 hnone
          have hlt := hadv hnone
          refine ih (fun l hl => hpos l (List.mem_cons_of_mem _ hl)) y1 s1
            (delivered ++ taken n data) _ _ ?_ ?_ ?_
          · rw [List.length_append, List.append_assoc, ← hsplit, hdel]
          · rw [List.length_append]
            exact hy1
          · rw [List.length_append]
            simp only [List.length_cons] at hμ
            omega

/-- C2. Resumable-reader exactness. The storage serves the object `D` (a Go slice,
shorter than `2 ^ 63`) from whatever offset a stream is opened at, and its calls fail
as an arbitrary schedule says. For the successive calls of `Read` on a fresh reader,
with buffers of arbitrary lengths: if the calls reach one that reports end of stream
(so none before it used up its retries), the bytes they returned, concatenated, are
`D`; every call of `reacquireReaderFn` received as offset the number of bytes
delivered so far; at any time the delivered bytes are a beginning of `D`; no call
panics; and with non-empty buffers, more calls than the schedule has steps and `D` has
bytes do reach the end of stream, unless one of them uses up its retries. -/
theorem C2_resumable_reader_exact (D : List Byte) (schedule : List Step) (lens : List Nat)
    (hD : D.length < 2 ^ 63) :
    ((fetchSession D schedule lens).status = SessionEnd.endOfStream →
      (fetchSession D schedule lens).delivered = D) ∧
    (∀ p ∈ (fetchSession D schedule lens).opens, p.1 = (p.2 : Int)) ∧
    (fetchSession D schedule lens).delivered <+: D ∧
    (fetchSession D schedule lens).status ≠ SessionEnd.panicked ∧
    ((∀ len ∈ lens, 0 < len) → schedule.length + D.length < lens.length →
      (fetchSession D schedule lens).status = SessionEnd.endOfStream ∨
      (fetchSession D schedule lens).status = SessionEnd.readFailed) := by
  have hy : ReaderAt D (newYRetryReader : YproxyRetryReader Nat) ([] : List Byte).length :=
    ⟨rfl, Nat.zero_le _, fun h => by simp [newYRetryReader] at h⟩
  obtain ⟨h1, h2, h3, h4⟩ := readAll_serving D hD lens newYRetryReader schedule [] [] 0
    (by simp) hy (by simp)
  refine ⟨h1, h2, h3, h4, fun hpos hmany => ?_⟩
  have h5 := readAll_live D hD lens hpos newYRetryReader schedule [] [] 0 (by simp) hy
    (by simpa using hmany)
  change (fetchSession D schedule lens).status ≠ SessionEnd.panicked at h4
  change (fetchSession D schedule lens).status ≠ SessionEnd.unfinished at h5
  cases hst : (fetchSession D schedule lens).status with
  | endOfStream => exact Or.inl rfl
  | readFailed => exact Or.inr rfl
  | panicked => exact absurd hst h4
  | unfinished => exact absurd hst h5

set_option maxRecDepth 1000000 in
/-- C2 on an object of 500 bytes whose stream breaks after `[0,100)` and after
`[100,250)`: streams are opened at offsets 0, 100 and 250, and `[0,500)` is delivered. -/
theorem C2_resumable_reader_exact_witness :
    (objectBytes 500).length < 2 ^ 63 ∧
    (fetchSession (objectBytes 500) flakySchedule [4096, 4096, 4096, 4096]).status
      = SessionEnd.endOfStream ∧
    (fetchSession (objectBytes 500) flakySchedule [4096, 4096, 4096, 4096]).opens
      = [(0, 0), (100, 100), (250, 250)] ∧
    (fetchSession (objectBytes 500) flakySchedule [4096, 4096, 4096, 4096]).delivered
      = objectBytes 500 :=
  ⟨by decide, by decide, by decide,
    (C2_resumable_reader_exact (objectBytes 500) flakySchedule [4096, 4096, 4096, 4096]
      (by decide)).1 (by decide)⟩

set_option maxRecDepth 1000000 in
/-- C4 as stated fails: on the reader built by `newYRetryReader` (`retryLimit` 100),
three calls of `Read` retry 120 failed attempts in total, none of the calls fails,
30 bytes are delivered, and `retryCnt` is still 0. -/
theorem C4_budget_not_shared :
    (newYRetryReader : YproxyRetryReader Nat).retryLimit = 100 ∧
    (readAll (servingBackend (objectBytes 500)) [4096, 4096, 4096] newYRetryReader
      flappingSchedule [] [] 0).failed = 120 ∧
    (readAll (servingBackend (objectBytes 500)) [4096, 4096, 4096] newYRetryReader
      flappingSchedule [] [] 0).status = SessionEnd.unfinished ∧
    (readAll (servingBackend (objectBytes 500)) [4096, 4096, 4096] newYRetryReader
      flappingSchedule [] [] 0).delivered.length = 30 ∧
    (readAll (servingBackend (objectBytes 500)) [4096, 4096, 4096] newYRetryReader
      flappingSchedule [] [] 0).y.retryCnt = 0 := by
  decide

/-! ## The connection handler -/

theorem slice_eq_take_drop {α : Type} (l : List α) (i c : Nat) :
    (l.take (min (i + c) l.length)).drop i = (l.drop i).take c := by
  rw [List.drop_take]
  by_cases h : i + c ≤ l.length
  · rw [Nat.min_eq_left h, Nat.add_sub_cancel_left]
  · have h2 : l.length ≤ i + c := by omega
    rw [Nat.min_eq_right h2]
    rw [List.take_of_length_le (by simp), List.take_of_length_le (by simp; omega)]

theorem connWrite_replicate {σ : Type} (w : World σ) (k : Nat) (f : Frame)
    (hw : w.writeResults = List.replicate k none) :
    (w.connWrite f).2 = none ∧ (w.connWrite f).1.log = w.log ++ [Event.sent f] ∧
    (w.connWrite f).1.crashed = w.crashed ∧
    (w.connWrite f).1.writeResults = List.replicate (k - 1) none := by
  unfold World.connWrite
  cases k with
  | zero =>
    rw [List.replicate_zero] at hw
    rw [hw]
    exact ⟨rfl, rfl, rfl, rfl⟩
  | succ j =>
    rw [List.replicate_succ] at hw
    rw [hw]
    exact ⟨rfl, rfl, rfl, rfl⟩

theorem listLoop_all_sent {σ : Type} (objs : List ObjectInfo) (bound i : Nat) (w : World σ)
    (k : Nat) (hw : w.writeResults = List.replicate k none) :
    (listLoop objs bound i w).2 = true ∧
    (listLoop objs bound i w).1.log
      = w.log ++ (chunked chunkSize bound (objs.drop i)).map
          (fun c => Event.sent (Frame.objectMeta c)) ∧
    (listLoop objs bound i w).1.crashed = w.crashed ∧
    ∃ k1, (listLoop objs bound i w).1.writeResults = List.replicate k1 none := by
  induction bound generalizing i w k with
  | zero => exact ⟨rfl, by simp [listLoop, chunked], rfl, k, hw⟩
  | succ b ih =>
    rw [listLoop, chunked]
    by_cases hi : i < objs.length
    · have hne : ¬ (objs.drop i).length = 0 := by
        rw [List.length_drop]
        omega
      rw [if_pos hi, if_neg hne]
      obtain ⟨h1, h2, h3, h4⟩ := connWrite_replicate w k
        (Frame.objectMeta ((objs.take (min (i + chunkSize) objs.length)).drop i)) hw
      rcases hcw : w.connWrite
        (Frame.objectMeta ((objs.take (min (i + chunkSize) objs.length)).drop i)) with ⟨w1, e⟩
      rw [hcw] at h1 h2 h3 h4
      dsimp only at h1 h2 h3 h4
      subst h1
      dsimp only
      obtain ⟨g1, g2, g3, g4⟩ := ih (i + chunkSize) w1 (k - 1) h4
      refine ⟨g1, ?_, by rw [g3, h3], g4⟩
      rw [g2, h2, slice_eq_take_drop, List.drop_drop, List.map_cons, List.append_assoc]
      rfl
    · have he : (objs.drop i).length = 0 := by
        rw [List.length_drop]
        omega
      rw [if_neg hi, if_pos he]
      exact ⟨rfl, by simp, rfl, k, hw⟩

theorem chunked_concat {α : Type} (c : Nat) (hc : 0 < c) (bound : Nat) (l : List α)
    (hb : l.length ≤ bound) : concatAll (chunked c bound l) = l := by
  induction bound generalizing l with
  | zero =>
    have : l = [] := List.length_eq_zero.mp (by omega)
    subst this
    rfl
  | succ b ih =>
    rw [chunked]
    by_cases h : l.length = 0
    · rw [if_pos h, List.length_eq_zero.mp h]; rfl
    · rw [if_neg h, concatAll]
      have hpos : 0 < l.length := by omega
      rw [ih (l.drop c) (by rw [List.length_drop]; omega), List.take_append_drop]

theorem chunked_lengths {α : Type} (bound : Nat) (l : List α) (hb : l.length ≤ bound) :
    (chunked 1000 bound l).map List.length
      = List.replicate (l.length / 1000) 1000
        ++ (if l.length % 1000 = 0 then [] else [l.length % 1000]) := by
  induction bound generalizing l with
  | zero =>
    have : l = [] := List.length_eq_zero.mp (by omega)
    subst this
    simp [chunked]
  | succ b ih =>
    rw [chunked]
    by_cases h : l.length = 0
    · rw [if_pos h, h]
      simp
    · rw [if_neg h]
      have hpos : 0 < l.length := by omega
      rw [List.map_cons, ih (l.drop 1000) (by rw [List.length_drop]; omega)]
      rw [List.length_take, List.length_drop]
      by_cases hbig : 1000 ≤ l.length
      · have e1 : l.length / 1000 = (l.length - 1000) / 1000 + 1 := by omega
        have e2 : (l.length - 1000) % 1000 = l.length % 1000 := by omega
        rw [e1, e2, Nat.min_eq_left hbig, List.replicate_succ]
        rfl
      · have e1 : l.length / 1000 = 0 := by omega
        have e3 : (l.length - 1000) / 1000 = 0 := by omega
        have e5 : min 1000 l.length = l.length := Nat.min_eq_right (by omega)
        have ht : (if (l.length - 1000) % 1000 = 0 then ([] : List Nat)
            else [(l.length - 1000) % 1000]) = [] := by
          rw [if_pos (by omega)]
        have hh : (if l.length % 1000 = 0 then ([] : List Nat) else [l.length % 1000])
            = [l.length] := by
          rw [if_neg (by omega), Nat.mod_eq_of_lt (by omega)]
        rw [ht, hh, e1, e3, e5]
        rfl

theorem procList_all_sent {σ ρ : Type} (C : Collaborators σ ρ) (body : List Byte)
    (w : World σ) (objs : List ObjectInfo) (k : Nat)
    (hL : C.ListPath (C.decodeList body).Prefix = (objs, none))
    (hw : w.writeResults = List.replicate k none) (hc : w.crashed = none) :
    (procList C body w).1.log
      = w.log ++ (chunked chunkSize objs.length objs).map
          (fun c => Event.sent (Frame.objectMeta c))
        ++ [Event.sent Frame.readyForQuery, Event.connClose] ∧
    (procList C body w).2 = Exit.returned none := by
  unfold procList
  simp only [hL]
  obtain ⟨g1, g2, g3, k1, g4⟩ := listLoop_all_sent objs objs.length 0 w k hw
  rcases hl : listLoop objs objs.length 0 w with ⟨w1, b⟩
  rw [hl] at g1 g2 g3 g4
  dsimp only at g1 g2 g3 g4
  subst g1
  dsimp only
  obtain ⟨h1, h2, h3, _⟩ := connWrite_replicate w1 k1 Frame.readyForQuery g4
  rcases hcw : w1.connWrite Frame.readyForQuery with ⟨w2, e⟩
  rw [hcw] at h1 h2 h3
  dsimp only at h1 h2 h3
  subst h1
  dsimp only
  have hc2 : w2.crashed = none := by rw [h3, g3, hc]
  unfold finish World.connClose
  dsimp only
  rw [hc2, h2, g2, List.drop_zero]
  simp

/-- C5. List chunking. When `ListPath` returns the `n` objects `objs` without error
and no write on the connection fails, the List branch of `ProcConn` writes one
ObjectMeta frame for each piece of a cut of `objs`, then one ReadyForQuery frame, closes
the connection and returns nil. The pieces put together are `objs` in their order,
there are `ceil(n/1000)` of them, none has more than 1000 entries, and their sizes are
`n / 1000` times 1000 followed, when 1000 does not divide `n`, by the remainder; for
`n = 0` only the ReadyForQuery frame is written. -/
theorem C5_list_chunking {σ ρ : Type} (C : Collaborators σ ρ) (fuel : Nat) (st : σ)
    (body : List Byte) (rest : List (Except GoError (MessageType × List Byte)))
    (objs : List ObjectInfo) (k : Nat) :
    ∃ chunks : List (List ObjectInfo),
      (ProcConn (withListing C objs) fuel
          { storage := st, packets := Except.ok (MessageType.list, body) :: rest,
            writeResults := List.replicate k none, log := [], crashed := none }).1.log
        = chunks.map (fun c => Event.sent (Frame.objectMeta c))
          ++ [Event.sent Frame.readyForQuery, Event.connClose] ∧
      (ProcConn (withListing C objs) fuel
          { storage := st, packets := Except.ok (MessageType.list, body) :: rest,
            writeResults := List.replicate k none, log := [], crashed := none }).2
        = Exit.returned none ∧
      concatAll chunks = objs ∧
      chunks.length = (objs.length + 999) / 1000 ∧
      (∀ c ∈ chunks, c.length ≤ 1000) ∧
      chunks.map List.length
        = List.replicate (objs.length / 1000) 1000
          ++ (if objs.length % 1000 = 0 then [] else [objs.length % 1000]) := by
  have hlen := chunked_lengths objs.length objs (Nat.le_refl _)
  refine ⟨chunked 1000 objs.length objs, ?_, ?_, chunked_concat 1000 (by decide) _ _
    (Nat.le_refl _), ?_, ?_, hlen⟩
  · have h := (procList_all_sent (withListing C objs) body
      { storage := st, packets := rest, writeResults := List.replicate k none, log := [],
        crashed := none } objs k rfl rfl rfl).1
    simpa [chunkSize] using h
  · exact (procList_all_sent (withListing C objs) body
      { storage := st, packets := rest, writeResults := List.replicate k none, log := [],
        crashed := none } objs k rfl rfl rfl).2
  · have h := congrArg List.length hlen
    rw [List.length_map, List.length_append, List.length_replicate] at h
    rw [h]
    by_cases hz : objs.length % 1000 = 0
    · rw [if_pos hz, List.length_nil]
      omega
    · rw [if_neg hz, List.length_singleton]
      omega
  · intro c hcm
    have hmem : c.length ∈ (chunked 1000 objs.length objs).map List.length :=
      List.mem_map_of_mem _ hcm
    rw [hlen] at hmem
    rcases List.mem_append.mp hmem with h | h
    · rw [(List.mem_replicate.mp h).2]
    · by_cases hz : objs.length % 1000 = 0
      · rw [if_pos hz] at h
        exact absurd h (List.not_mem_nil _)
      · rw [if_neg hz, List.mem_singleton] at h
        omega

/-- C5 for a listing of 2500 objects: frames of 1000, 1000 and 500 entries, then
ReadyForQuery. -/
theorem C5_list_chunking_2500 :
    ∃ chunks : List (List ObjectInfo),
      (ProcConn (withListing default_collaborators listing2500) 0
          { storage := 0, packets := [Except.ok (MessageType.list, [])],
            writeResults := List.replicate 0 none, log := [], crashed := none }).1.log
        = chunks.map (fun c => Event.sent (Frame.objectMeta c))
          ++ [Event.sent Frame.readyForQuery, Event.connClose] ∧
      chunks.map List.length = [1000, 1000, 500] := by
  obtain ⟨chunks, h1, _, _, _, _, h6⟩ :=
    C5_list_chunking default_collaborators 0 0 [] [] listing2500 0
  refine ⟨chunks, h1, ?_⟩
  have hn : listing2500.length = 2500 := List.length_replicate _ _
  rw [h6, hn]
  decide

theorem pipeWrite_drained (chunks : List (List Byte)) (p : Nat) :
    pipeWrite none chunks p = some (p + chunks.length) := by
  induction chunks generalizing p with
  | nil => rfl
  | cons c rest ih =>
    rw [pipeWrite, ih, List.length_cons]
    congr 1
    omega

/-- Against a storage that reads the pipe to its end, the loop of the feeder never
waits for ever. -/
theorem feederLoop_drained {σ ρ : Type} (C : Collaborators σ ρ) (encrypt : Bool)
    (packets : List (Except GoError (MessageType × List Byte))) (k p : Nat) (w : World σ) :
    (feederLoop C encrypt none packets k p w).2 = true := by
  induction packets generalizing k p w with
  | nil => rfl
  | cons r rest ih =>
    cases r with
    | error err => rfl
    | ok tb =>
      obtain ⟨tp, body⟩ := tb
      have hother : ∀ w1 : World σ, (feederLoop C encrypt none rest k p w1).2 = true :=
        fun w1 => ih k p w1
      cases tp with
      | copyData =>
        rw [feederLoop]
        unfold wwWrite
        cases encrypt with
        | false =>
          simp only [pipeWrite_drained, Option.map_some', Bool.false_eq_true, if_false]
          by_cases hn : ((C.decodeCopyData body).Data.length : Int)
              ≠ wrapInt64 (C.decodeCopyData body).Sz
          · rw [if_pos hn]
          · rw [if_neg hn]
            exact ih _ _ _
        | true =>
          rcases hE : C.encWrite k (C.decodeCopyData body).Data with ⟨chunks, n, err⟩
          simp only [pipeWrite_drained, Option.map_some', if_true]
          cases err with
          | some e => rfl
          | none =>
            dsimp only
            by_cases hn : n ≠ wrapInt64 (C.decodeCopyData body).Sz
            · rw [if_pos hn]
            · rw [if_neg hn]
              exact ih _ _ _
      | commandComplete =>
        rw [feederLoop]
        unfold wwClose
        cases encrypt with
        | false => rfl
        | true =>
          rcases hE : C.encClose with ⟨chunks, err⟩
          simp only [pipeWrite_drained, Option.map_some', if_true]
          cases err with
          | some e => rfl
          | none => rfl
      | cat =>
        rw [feederLoop]
        all_goals first | exact hother _ | (intro h; cases h)
      | put =>
        rw [feederLoop]
        all_goals first | exact hother _ | (intro h; cases h)
      | list =>
        rw [feederLoop]
        all_goals first | exact hother _ | (intro h; cases h)
      | readyForQuery =>
        rw [feederLoop]
        all_goals first | exact hother _ | (intro h; cases h)
      | objectMeta =>
        rw [feederLoop]
        all_goals first | exact hother _ | (intro h; cases h)
      | error =>
        rw [feederLoop]
        all_goals first | exact hother _ | (intro h; cases h)
      | other tag =>
        rw [feederLoop]
        all_goals first | exact hother _ | (intro h; cases h)

theorem feederLoop_short_write {σ ρ : Type} (C : Collaborators σ ρ) (reads : Option Nat)
    (body : List Byte) (rest : List (Except GoError (MessageType × List Byte)))
    (k p p1 : Nat) (w : World σ) (n : Int)
    (hw : wwWrite C true reads k p (C.decodeCopyData body).Data = some (p1, n, none))
    (hn : n ≠ wrapInt64 (C.decodeCopyData body).Sz) :
    feederLoop C true reads (Except.ok (MessageType.copyData, body) :: rest) k p w
      = (ReplyError (some (GoError.other (goString "unfull write")))
          (goString "failed to compelete request") { w with packets := rest }, true) := by
  rw [feederLoop]
  simp only [hw]
  rw [if_pos hn]

/-- When the storage stops reading before the first write, the feeder waits in
`w.Write` for ever and so does the handler in `wg.Wait()`. -/
theorem procPut_storage_stops_reading {σ ρ : Type} (C : Collaborators σ ρ) (fuel : Nat)
    (st : σ) (name body chunk : List Byte) (err : Option GoError)
    (rest : List (Except GoError (MessageType × List Byte))) :
    (ProcConn
        { C with PutFileToDest := fun _ => { reads := some 0, err := err },
                 decodePut := fun _ => { Name := name, Encrypt := false } } fuel
        { storage := st,
          packets := Except.ok (MessageType.put, body)
            :: Except.ok (MessageType.copyData, chunk) :: rest,
          writeResults := [], log := [], crashed := none }).2 = Exit.blocked := rfl

/-- C7 fails on the code. In a Put exchange the feeder ends in failure (the read of a
sub-frame fails with `err`; or, on the encrypting writer, `ww.Write` returns a count
`n` that differs from the declared size; or it returns `err`) and replies with an
Error frame; it closes the pipe without an error, so the storage, which reads the pipe
to its end, sees a clean end of stream, and when `PutFileToDest` returns nil `ProcConn`
writes a ReadyForQuery frame after the Error frame and returns nil. -/
theorem C7_ready_for_query_after_feeder_failure {σ ρ : Type} (C : Collaborators σ ρ)
    (fuel : Nat) (st : σ) (name body chunk data : List Byte) (err : GoError)
    (n : Int) (sz : Nat) (cipher : List (List Byte)) :
    (framesSent (ProcConn
        { C with PutFileToDest := fun _ => { reads := none, err := none },
                 decodePut := fun _ => { Name := name, Encrypt := false } } fuel
        { storage := st,
          packets := [Except.ok (MessageType.put, body), Except.error err],
          writeResults := [], log := [], crashed := none }).1.log
      = [Frame.error { Error := err.Error, Message := goString "failed to read chunk of data" },
         Frame.readyForQuery] ∧
      (ProcConn
        { C with PutFileToDest := fun _ => { reads := none, err := none },
                 decodePut := fun _ => { Name := name, Encrypt := false } } fuel
        { storage := st,
          packets := [Except.ok (MessageType.put, body), Except.error err],
          writeResults := [], log := [], crashed := none }).2 = Exit.returned none) ∧
    (n = wrapInt64 sz ∨
      framesSent (ProcConn
          { C with PutFileToDest := fun _ => { reads := none, err := none },
                   Encrypt := none,
                   decodePut := fun _ => { Name := name, Encrypt := true },
                   decodeCopyData := fun _ => { Sz := sz, Data := data },
                   encWrite := fun _ _ => (cipher, n, none) } fuel
          { storage := st,
            packets := [Except.ok (MessageType.put, body),
              Except.ok (MessageType.copyData, chunk)],
            writeResults := [], log := [], crashed := none }).1.log
        = [Frame.error { Error := goString "unfull write",
                         Message := goString "failed to compelete request" },
           Frame.readyForQuery]) ∧
    framesSent (ProcConn
        { C with PutFileToDest := fun _ => { reads := none, err := none },
                 Encrypt := none,
                 decodePut := fun _ => { Name := name, Encrypt := true },
                 decodeCopyData := fun _ => { Sz := sz, Data := data },
                 encWrite := fun _ _ => (cipher, n, some err) } fuel
        { storage := st,
          packets := [Except.ok (MessageType.put, body),
            Except.ok (MessageType.copyData, chunk)],
          writeResults := [], log := [], crashed := none }).1.log
      = [Frame.error { Error := err.Error, Message := goString "failed to write copy data" },
         Frame.readyForQuery] := by
  refine ⟨⟨rfl, rfl⟩, ?_, ?_⟩
  · by_cases h : n = wrapInt64 sz
    · exact Or.inl h
    · right
      have key := feederLoop_short_write
        { C with PutFileToDest := fun _ => { reads := none, err := none },
                 Encrypt := none,
                 decodePut := fun _ => { Name := name, Encrypt := true },
                 decodeCopyData := fun _ => { Sz := sz, Data := data },
                 encWrite := fun _ _ => (cipher, n, none) } none chunk [] 0 0
        (0 + cipher.length)
        { storage := st, packets := [Except.ok (MessageType.copyData, chunk)],
          writeResults := [], log := [], crashed := none } n
        (by simp [wwWrite, pipeWrite_drained]) h
      unfold ProcConn ReadPacket
      dsimp only
      unfold procPut feeder
      dsimp only
      rw [if_pos rfl, key]
      rfl
  · unfold ProcConn ReadPacket
    dsimp only
    unfold procPut feeder
    dsimp only
    rw [if_pos rfl]
    dsimp only
    rw [feederLoop]
    simp only [wwWrite, pipeWrite_drained, Option.map_some', if_true]
    rfl

/-- C9 fails on the code. For a request frame whose type tag is none of Cat, Put and
List, `ProcConn` calls `ReplyError(nil, "wrong request type")`; `NewErrorMessage`
calls `Error()` on the nil error, which panics: no Error frame is written, the
deferred `Close` of the connection is the only event, and `ProcConn` ends in a panic. -/
theorem C9_unknown_type_panics {σ ρ : Type} (C : Collaborators σ ρ) (fuel : Nat) (st : σ)
    (tp : MessageType) (body : List Byte)
    (rest : List (Except GoError (MessageType × List Byte)))
    (writeResults : List (Option GoError)) :
    tp = MessageType.cat ∨ tp = MessageType.put ∨ tp = MessageType.list ∨
    ((ProcConn C fuel
        { storage := st, packets := Except.ok (tp, body) :: rest,
          writeResults := writeResults, log := [], crashed := none }).2
        = Exit.panicked GoPanic.nilDereference ∧
      (ProcConn C fuel
        { storage := st, packets := Except.ok (tp, body) :: rest,
          writeResults := writeResults, log := [], crashed := none }).1.log
        = [Event.connClose] ∧
      NewErrorMessage none (goString "wrong request type")
        = GoResult.panicked GoPanic.nilDereference) := by
  cases tp with
  | cat => exact Or.inl rfl
  | put => exact Or.inr (Or.inl rfl)
  | list => exact Or.inr (Or.inr (Or.inl rfl))
  | copyData => exact Or.inr (Or.inr (Or.inr ⟨rfl, rfl, rfl⟩))
  | commandComplete => exact Or.inr (Or.inr (Or.inr ⟨rfl, rfl, rfl⟩))
  | readyForQuery => exact Or.inr (Or.inr (Or.inr ⟨rfl, rfl, rfl⟩))
  | objectMeta => exact Or.inr (Or.inr (Or.inr ⟨rfl, rfl, rfl⟩))
  | error => exact Or.inr (Or.inr (Or.inr ⟨rfl, rfl, rfl⟩))
  | other tag => exact Or.inr (Or.inr (Or.inr ⟨rfl, rfl, rfl⟩))

/-- C8 fails on the code. When `cr.Encrypt(w)` fails, the feeder replies with an Error
frame, closes the connection and returns before its `defer w.Close()` and
`defer wg.Done()` are registered: the pipe is never closed, the wait group never
signalled, and `ProcConn` waits for ever. Every other return of the feeder ends with
`wg.Done()` and `w.Close()`, and against a storage that reads the pipe to its end the
feeder always returns. -/
theorem C8_encrypt_failure_leaves_pipe_open {σ ρ : Type} (C : Collaborators σ ρ)
    (fuel : Nat) (st : σ) (name body : List Byte) (err : GoError)
    (rest : List (Except GoError (MessageType × List Byte))) :
    (∀ reads : Option Nat,
      (feeder { C with Encrypt := some err } { Name := name, Encrypt := true } reads
          { storage := st, packets := rest, writeResults := [], log := [],
            crashed := none }).1.log
        = [Event.sent (Frame.error
            { Error := err.Error, Message := goString "failed to encrypt" }),
           Event.connClose]) ∧
    (ProcConn { C with Encrypt := some err,
                       decodePut := fun _ => { Name := name, Encrypt := true } } fuel
        { storage := st, packets := Except.ok (MessageType.put, body) :: rest,
          writeResults := [], log := [], crashed := none }).2 = Exit.blocked ∧
    Event.pipeClose ∉
      (ProcConn { C with Encrypt := some err,
                         decodePut := fun _ => { Name := name, Encrypt := true } } fuel
        { storage := st, packets := Except.ok (MessageType.put, body) :: rest,
          writeResults := [], log := [], crashed := none }).1.log ∧
    Event.wgDone ∉
      (ProcConn { C with Encrypt := some err,
                         decodePut := fun _ => { Name := name, Encrypt := true } } fuel
        { storage := st, packets := Except.ok (MessageType.put, body) :: rest,
          writeResults := [], log := [], crashed := none }).1.log ∧
    (∀ (msg : PutMessage) (w : World σ),
      (msg.Encrypt = true ∧ C.Encrypt ≠ none) ∨
        ∃ l, (feeder C msg none w).1.log = l ++ [Event.wgDone, Event.pipeClose]) ∧
    (∀ (msg : PutMessage) (reads : Option Nat) (w : World σ),
      (msg.Encrypt = true ∧ C.Encrypt ≠ none) ∨
        (feeder C msg reads w).2 = FeederEnd.blocked ∨
        ∃ l, (feeder C msg reads w).1.log = l ++ [Event.wgDone, Event.pipeClose]) := by
  have hshape : ∀ (msg : PutMessage) (reads : Option Nat) (w : World σ),
      (msg.Encrypt = true ∧ C.Encrypt ≠ none) ∨
        (feeder C msg reads w).2 = FeederEnd.blocked ∨
        ∃ l, (feeder C msg reads w).1.log = l ++ [Event.wgDone, Event.pipeClose] := by
    intro msg reads w
    have hloop : (if msg.Encrypt = true then C.Encrypt else none) = none →
        (feeder C msg reads w).2 = FeederEnd.blocked ∨
        ∃ l, (feeder C msg reads w).1.log = l ++ [Event.wgDone, Event.pipeClose] := by
      intro hnone
      unfold feeder
      rw [hnone]
      dsimp only
      rcases hl : feederLoop C msg.Encrypt reads w.packets 0 0 w with ⟨w1, b⟩
      cases b with
      | false => exact Or.inl rfl
      | true => exact Or.inr ⟨_, rfl⟩
    cases hE : msg.Encrypt with
    | false => exact Or.inr (hloop (by rw [hE]; rfl))
    | true =>
      cases hC : C.Encrypt with
      | none => exact Or.inr (hloop (by rw [hE, hC]; rfl))
      | some e => exact Or.inl ⟨rfl, by simp⟩
  refine ⟨fun _ => rfl, ?_, ?_, ?_, ?_, hshape⟩
  rotate_left 3
  · intro msg w
    rcases hshape msg none w with h | h | h
    · exact Or.inl h
    · exfalso
      by_cases hnone : (if msg.Encrypt = true then C.Encrypt else none) = none
      · unfold feeder at h
        rw [hnone] at h
        dsimp only at h
        have hd := feederLoop_drained C msg.Encrypt w.packets 0 0 w
        rcases hl : feederLoop C msg.Encrypt none w.packets 0 0 w with ⟨w1, b⟩
        rw [hl] at h hd
        dsimp only at hd
        subst hd
        exact FeederEnd.noConfusion h
      · unfold feeder at h
        cases hv : (if msg.Encrypt = true then C.Encrypt else none) with
        | none => exact hnone hv
        | some e =>
          rw [hv] at h
          exact FeederEnd.noConfusion h
    · exact Or.inr h
  · simp [ProcConn, ReadPacket, procPut, feeder, ReplyError, NewErrorMessage,
      World.connWrite, World.connClose]
  · simp [ProcConn, ReadPacket, procPut, feeder, ReplyError, NewErrorMessage,
      World.connWrite, World.connClose]
  · simp [ProcConn, ReadPacket, procPut, feeder, ReplyError, NewErrorMessage,
      World.connWrite, World.connClose]

/-- C10 fails on the code: `newYRetryReader` leaves `underlying` nil, so `Close` on a
fresh reader panics with a nil dereference whatever the backend is; after a `Read`
that used up its retries on a storage that cannot be reached, `underlying` is still
nil and `Close` panics as well; and so does `ProcConn` on a Cat request for such a
storage: it replies with an Error frame for the failed copy, then its deferred
`yr.Close()` panics. -/
theorem C10_Close_panics_without_stream :
    (∀ (σ ρ : Type) (B : Backend σ ρ) (s : σ),
      YproxyRetryReader.Close B newYRetryReader s
        = GoResult.panicked GoPanic.nilDereference) ∧
    (YproxyRetryReader.Read unreachableBackend 32768 newYRetryReader 0).fin
      = ReadEnd.ret (-1) (some retriesExhausted) [] ∧
    YproxyRetryReader.Close unreachableBackend
        (YproxyRetryReader.Read unreachableBackend 32768 newYRetryReader 0).y
        (YproxyRetryReader.Read unreachableBackend 32768 newYRetryReader 0).s
      = GoResult.panicked GoPanic.nilDereference ∧
    (ProcConn default_collaborators 8
        { storage := 0, packets := [Except.ok (MessageType.cat, [])],
          writeResults := [], log := [], crashed := none }).2
      = Exit.panicked GoPanic.nilDereference ∧
    (ProcConn default_collaborators 8
        { storage := 0, packets := [Except.ok (MessageType.cat, [])],
          writeResults := [], log := [], crashed := none }).1.log
      = [Event.sent (Frame.error { Error := retriesExhausted.Error,
                                   Message := goString "copy failed to compelete" }),
         Event.connClose] := by
  refine ⟨fun _ _ _ _ => rfl, ?_, ?_, ?_, ?_⟩
  · decide
  · decide
  · decide
  · decide

end Yproxy
